import Mathlib

/-!
# Verification of the kmfddm DynamoDB storage backend

A shallow embedding of the `dynamo` storage package (declaration store,
group/enrollment edge store, DDM cascade engine and status-merge engine)
together with proofs and refutations of the specified properties.

Go strings and byte slices are modelled as `List Char` (the sources only
manipulate them bytewise; on the ASCII data involved, characters and bytes
coincide).  The DynamoDB table is modelled as a list of items keyed by the
composite (pk, sk) key, with the non-key attributes kept as an association
list.  `PutItem` replaces the whole item at a key; `GetItem` on an absent key
returns an empty attribute map and no error (as DynamoDB does); `Query` with
`begins_with` on the range key returns the matching items, and the
`reverse-sk-pk-index` query returns the items with the two key roles swapped.
Table/schema provisioning is outside the embedding.
-/

deriving instance DecidableEq for Except

abbrev Str := List Char

def str (s : String) : Str := s.toList

/-- `strings.TrimPrefix`. -/
def trimPre (s pre : Str) : Str :=
  if pre.isPrefixOf s then s.drop pre.length else s

/-- `strings.Contains`: `sub` occurs contiguously in `s`. -/
def strContains : Str → Str → Bool
  | [], sub => sub.isEmpty
  | c :: rest, sub => sub.isPrefixOf (c :: rest) || strContains rest sub

/-- One stored DynamoDB item: the composite key plus the non-key attributes
(attribute name / string value pairs, in marshal order). -/
structure Item where
  pk : Str
  sk : Str
  attrs : List (Str × Str)
deriving DecidableEq, Repr

/-- The backing table state. -/
structure DB where
  items : List Item
deriving DecidableEq, Repr

/-- Errors surfaced by the Go code (collapsed to their identity; the message
strings do not influence control flow). -/
inductive GoErr where
  /-- `attributevalue.UnmarshalListOfMaps` was handed a non-slice target. -/
  | unmarshalTypeErr
  /-- `fmt.Errorf("...: %w", err)` wrapping (the wrapped error is collapsed:
  no caller inspects it). -/
  | wrapped
  /-- `json.Unmarshal` of a non-object payload into `map[string]interface{}`. -/
  | notObject
  /-- a `nil`-pointer dereference (Go run-time panic). -/
  | nilPanic
  /-- a malformed CSV body. -/
  | csv
  /-- `readStatusValues`: a CSV record without exactly four fields. -/
  | recordFields
deriving DecidableEq, Repr

/-- `PutItem`: store the item, replacing any existing item with the same
composite key. -/
def putItem (db : DB) (it : Item) : DB :=
  ⟨it :: db.items.filter (fun j => !(j.pk == it.pk && j.sk == it.sk))⟩

/-- The item stored at a composite key, if any. -/
def getItem (db : DB) (pk sk : Str) : Option Item :=
  db.items.find? (fun j => j.pk == pk && j.sk == sk)

/-- `GetItemsSKBeginsWith` with a slice result: `Query` on
`pk = :pkey AND begins_with(sk, :begin)`. -/
def getItemsSKBeginsWith (db : DB) (pk skBegins : Str) : List Item :=
  db.items.filter (fun it => it.pk == pk && skBegins.isPrefixOf it.sk)

/-- `GetReverseItems` with a slice result: the same query through the
`reverse-sk-pk-index`, i.e. `sk = :pkey AND begins_with(pk, :begin)`. -/
def getReverseItems (db : DB) (sk pkBegins : Str) : List Item :=
  db.items.filter (fun it => it.sk == sk && pkBegins.isPrefixOf it.pk)

/-- `GetItemsSKBeginsWith` as called with a pointer to a *single struct* as
the result (as `StoreDeclaration` does): `attributevalue.UnmarshalListOfMaps`
requires a slice target and returns an `UnmarshalTypeError` for any other
kind, before writing anything to the target, so the call always fails and
leaves the target at its zero value regardless of the query result. -/
def getItemsSKBeginsWithIntoStruct (_db : DB) (_pk _skBegins : Str) :
    Except GoErr Unit :=
  .error .unmarshalTypeErr

/-- `deleteSingleItem`: the item is re-marshalled in full and handed to
`DeleteItem` as the `Key`.  DynamoDB rejects a `Key` that carries non-key
attributes (`ValidationException`), in which case nothing is deleted and the
function returns `false`; a bare (pk, sk) key deletes the item. -/
def deleteSingleItem (db : DB) (it : Item) : DB × Bool :=
  if it.attrs.isEmpty then
    (⟨db.items.filter (fun j => !(j.pk == it.pk && j.sk == it.sk))⟩, true)
  else
    (db, false)

/-- `GetSingleItemPKSK`: `GetItem` followed by `UnmarshalMap`.  A missing key
yields an empty item map, which unmarshals to the zero struct without error,
so the caller just sees empty attribute values. -/
def getSingleItemPKSK (db : DB) (pk sk : Str) : List (Str × Str) :=
  match getItem db pk sk with
  | some it => it.attrs
  | none => []

/-- Value of one attribute out of an unmarshalled attribute list. -/
def attrOf (attrs : List (Str × Str)) (name : Str) : Str :=
  match attrs.find? (fun kv => kv.1 == name) with
  | some kv => kv.2
  | none => []

/-! ## Status merge engine (`status.go`) -/

/-- `ddm.StatusValue`. -/
structure StatusValue where
  path : Str
  containerType : Str
  valueType : Str
  value : Str
deriving DecidableEq, Repr

/-- `containsValue`'s four-field comparison for a single pair. -/
def svMatch (v w : StatusValue) : Bool :=
  v.path == w.path && v.valueType == w.valueType &&
    v.containerType == w.containerType && v.value == w.value

def containsValueAux (v : StatusValue) (i : Int) : List StatusValue → Int
  | [] => -1
  | w :: rest => if svMatch v w then i else containsValueAux v (i + 1) rest

/-- `containsValue`: index of the first stored tuple agreeing with `v` on all
four fields, `-1` if none does. -/
def containsValue (values : List StatusValue) (v : StatusValue) : Int :=
  containsValueAux v 0 values

/-- `mergeStatusValues`: copy `dst`, then append each `src` tuple that has no
four-field match in the set accumulated so far. -/
def mergeStatusValues (dst src : List StatusValue) : List StatusValue :=
  src.foldl
    (fun ret srcValue =>
      if containsValue ret srcValue < 0 then ret ++ [srcValue] else ret)
    (([] : List StatusValue) ++ dst)

/-- Number of stored tuples matching `v` on all four fields. -/
def matchCount (values : List StatusValue) (v : StatusValue) : Nat :=
  (values.filter (fun w => svMatch v w)).length

/-! ## Path filtering (`filterPathPrefix`) -/

/-- The per-path test inside `filterPathPrefix`: `%` on both ends asks for a
substring match (but only when the *stored path* is at least 3 bytes long),
a leading `%` for a suffix match, a trailing `%` for a prefix match, and no
marker for exact equality. -/
def pathMatches (path pat : Str) : Bool :=
  let hasPre := (str "%").isPrefixOf pat
  let hasSuf := (str "%").isSuffixOf pat
  if 3 ≤ path.length ∧ hasPre = true ∧ hasSuf = true then
    strContains path (pat.drop 1).dropLast
  else if hasPre then
    (pat.drop 1).isSuffixOf path
  else if hasSuf then
    pat.dropLast.isPrefixOf path
  else
    path == pat

/-- `filterPathPrefix`: keep the stored values whose path matches the
pattern. -/
def filterPathPrefix (values : List StatusValue) (pat : Str) :
    List StatusValue :=
  values.filter (fun v => pathMatches v.path pat)

/-! ## JSON payloads

`StoreDeclaration` round-trips the uploaded payload through
`json.Unmarshal` into `map[string]interface{}` and back through
`json.Marshal`.  The model represents the *parsed* payload (a byte-identical
raw payload parses to an identical value, which is all the code depends on
after the unmarshal step).  Objects are kept as field lists; string leaves
and nested objects cover the payload shapes exercised here.  `json.Marshal`
of a Go map emits the keys in sorted order — the model emits the field list
in its stored order and keeps that order canonical under the (single)
`delete`/insert performed on it, which preserves all the equalities the code
relies on. -/

inductive Json where
  /-- a string leaf. -/
  | str (s : Str)
  /-- the empty object. -/
  | objNil
  /-- an object field followed by the rest of the object
  (`rest` is itself `objNil`/`objCons`). -/
  | objCons (key : Str) (val : Json) (rest : Json)
deriving DecidableEq, Repr

/-- Minimal JSON string quoting (escaping the two structural characters);
injective, which is the only property of Go's encoder the code relies on. -/
def jsonQuoteBody : Str → Str
  | [] => []
  | '"' :: rest => '\\' :: '"' :: jsonQuoteBody rest
  | '\\' :: rest => '\\' :: '\\' :: jsonQuoteBody rest
  | c :: rest => c :: jsonQuoteBody rest

def jsonQuote (s : Str) : Str := '"' :: jsonQuoteBody s ++ ['"']

def marshalJson : Json → Str
  | .str s => jsonQuote s
  | .objNil => str "\x7b\x7d"
  | .objCons k v .objNil =>
      str "\x7b" ++ jsonQuote k ++ str ":" ++ marshalJson v ++ str "\x7d"
  | .objCons k v rest =>
      str "\x7b" ++ jsonQuote k ++ str ":" ++ marshalJson v ++ str "," ++
        (marshalJson rest).drop 1

/-- `delete(declaration, key)` on an unmarshalled object. -/
def jsonDelete : Json → Str → Json
  | .objCons k v rest, key =>
      if k == key then jsonDelete rest key
      else .objCons k v (jsonDelete rest key)
  | j, _ => j

/-- `declaration[key] = val` on an unmarshalled object (the key is inserted
fresh; every use in the code deletes it first). -/
def jsonSet : Json → Str → Json → Json
  | .objCons k v rest, key, val => .objCons k v (jsonSet rest key val)
  | .objNil, key, val => .objCons key val .objNil
  | j, _, _ => j

/-! ## Declaration store (`StoreDeclaration` and friends) -/

/-- `ddm.Declaration` as handed to the storage layer: the caller-parsed
identifier and type, and the raw payload (modelled by its parse, see above). -/
structure Declaration where
  identifier : Str
  typ : Str
  raw : Json
deriving DecidableEq, Repr

/-- The `dsDeclaration` record struct. -/
structure DsDeclaration where
  pk : Str
  sk : Str
  json : Str
  token : Str
  salt : Str
  typ : Str
deriving DecidableEq, Repr

def dsDeclarationZero : DsDeclaration := ⟨[], [], [], [], [], []⟩

/-- `attributevalue.MarshalMap` of a `dsDeclaration`: none of its attribute
tags carry `omitempty`, so all four non-key attributes are always present. -/
def marshalDsDeclaration (d : DsDeclaration) : Item :=
  ⟨d.pk, d.sk,
    [(str "json", d.json), (str "dec_token", d.token),
     (str "dec_type", d.typ), (str "salt", d.salt)]⟩

/-- `UnmarshalMap` into a `dsDeclaration` (pk/sk keys plus the four tagged
attributes; anything missing stays at the zero value). -/
def unmarshalDsDeclaration (pk sk : Str) (attrs : List (Str × Str)) :
    DsDeclaration :=
  ⟨pk, sk, attrOf attrs (str "json"), attrOf attrs (str "dec_token"),
    attrOf attrs (str "salt"), attrOf attrs (str "dec_type")⟩

/-- `attributevalue.MarshalMap` of a `dsGenericItem`: `body` is tagged
`omitempty`, so an empty body marshals to the bare key. -/
def marshalDsGenericItem (pk sk body : Str) : Item :=
  ⟨pk, sk, if body.isEmpty then [] else [(str "body", body)]⟩

/-- The non-storage collaborators carried by `DSDynamoTable` and the `ddm`
package: the configured hash (`s.newHash`, hex digest of the written bytes)
and the declaration-items/tokens builders (external, deterministic and
order-independent by contract; they are fed the stored declaration JSON
bodies of the enrollment's reachable declarations). -/
structure Collab where
  hashHex : Str → Str
  buildDI : List Str → Str
  buildTokens : List Str → Str

/-- Lexicographic order on strings, used to canonicalise the Go map
iteration in `writeEnrollmentDDM` (the builders are order-independent). -/
def strLe : Str → Str → Bool
  | [], _ => true
  | _ :: _, [] => false
  | a :: as, b :: bs =>
      if a.val < b.val then true
      else if b.val < a.val then false
      else strLe as bs

def insertSortedStr (x : Str) : List Str → List Str
  | [] => [x]
  | y :: ys => if strLe x y then x :: y :: ys else y :: insertSortedStr x ys

def sortStrs : List Str → List Str
  | [] => []
  | x :: xs => insertSortedStr x (sortStrs xs)

def dedupSortedStrs : List Str → List Str
  | [] => []
  | [x] => [x]
  | x :: y :: ys =>
      if x == y then dedupSortedStrs (y :: ys)
      else x :: dedupSortedStrs (y :: ys)

/-- `writeEnrollmentDDM`: collect the enrollment's sets, union their
declarations (a Go map, canonicalised here to a sorted deduplicated list),
fetch each declaration's stored JSON (`RetrieveDeclaration`'s error is
dropped and the result dereferenced, so a missing record is a run-time
panic), feed the builders, and overwrite the enrollment's `json` and
`tokens` records. -/
def writeEnrollmentDDM (c : Collab) (db : DB) (enrollmentID : Str) :
    Except GoErr DB := do
  let sets := (getItemsSKBeginsWith db (str "enroll#" ++ enrollmentID)
      (str "set#")).map (fun it => trimPre it.sk (str "set#"))
  let decIds := dedupSortedStrs (sortStrs (sets.flatMap (fun setName =>
      (getItemsSKBeginsWith db (str "set#" ++ setName) (str "dec#")).map
        (fun it => trimPre it.sk (str "dec#")))))
  let bodies ← decIds.mapM (fun id => do
      let attrs := getSingleItemPKSK db (str "dec#" ++ id) (str "dec#")
      let body := attrOf attrs (str "json")
      if body.isEmpty then
        -- `ParseDeclaration` fails on the empty body, `RetrieveDeclaration`
        -- returns `nil`, and `dec.Raw` dereferences it.
        Except.error GoErr.nilPanic
      else
        Except.ok body)
  let db1 := putItem db
    (marshalDsGenericItem (str "enroll#" ++ enrollmentID) (str "json")
      (c.buildDI bodies))
  let db2 := putItem db1
    (marshalDsGenericItem (str "enroll#" ++ enrollmentID) (str "tokens")
      (c.buildTokens bodies))
  return db2

/-- `declarationEnrollmentIDs`: a *forward* query for
`pk = "dec#"+id AND begins_with(sk, "set#")` (the group edges are stored the
other way round, as `pk = "set#"+name, sk = "dec#"+id`), then for each hit an
inverse query for the groups' enrollments.  Inner query errors are skipped
and the returned error is always `nil`. -/
def declarationEnrollmentIDs (db : DB) (declarationID : Str) :
    Except GoErr (List Str) :=
  let items := getItemsSKBeginsWith db (str "dec#" ++ declarationID)
    (str "set#")
  .ok (items.flatMap (fun it =>
    (getReverseItems db it.pk (str "enroll#")).map
      (fun e => trimPre e.pk (str "enroll#"))))

/-- `RetrieveDeclarationEnrollmentIDs`. -/
def RetrieveDeclarationEnrollmentIDs (db : DB) (declarationID : Str) :
    Except GoErr (List Str) :=
  declarationEnrollmentIDs db declarationID

/-- `RetrieveSetEnrollmentIDs`: inverse query for the enrollments of a set. -/
def RetrieveSetEnrollmentIDs (db : DB) (setName : Str) :
    Except GoErr (List Str) :=
  .ok ((getReverseItems db (str "set#" ++ setName) (str "enroll#")).map
    (fun it => trimPre it.pk (str "enroll#")))

/-- `writeDeclarationDDM`: recompute the DDM documents of every enrollment
returned by `declarationEnrollmentIDs`, aborting at the first failure. -/
def writeDeclarationDDM (c : Collab) (db : DB) (declarationID : Str) :
    Except GoErr DB := do
  let ids ← declarationEnrollmentIDs db declarationID
  ids.foldlM (fun acc id => writeEnrollmentDDM c acc id) db

/-- `writeSetDDM`: a *forward* query for
`pk = "set#"+name AND begins_with(sk, "enroll#")` (the membership edges are
stored the other way round, as `pk = "enroll#"+id, sk = "set#"+name`), then
recompute each hit, aborting at the first failure. -/
def writeSetDDM (c : Collab) (db : DB) (setName : Str) : Except GoErr DB := do
  let items := getItemsSKBeginsWith db (str "set#" ++ setName)
    (str "enroll#")
  items.foldlM
    (fun acc it => writeEnrollmentDDM c acc (trimPre it.sk (str "enroll#")))
    db

/-- `StoreDeclaration`.  `freshSalt` is the byte string `rand.Read` would
fill the new creation salt with on this call. -/
def StoreDeclaration (c : Collab) (db : DB) (freshSalt : Str)
    (d : Declaration) : Except GoErr (Bool × DB) := do
  -- var item dsDeclaration
  -- err := s.GetItemsSKBeginsWith("dec#"+d.Identifier, "dec#", &item)
  let item := dsDeclarationZero
  let err0 : Option GoErr :=
    match getItemsSKBeginsWithIntoStruct db (str "dec#" ++ d.identifier)
        (str "dec#") with
    | .ok _ => none
    | .error e => some e
  -- if item.Token != "" && item.Salt != "" reuse them, else generate a salt
  -- (overwriting err with rand.Read's result)
  let (token, creationSalt, tokenMissing, err) :=
    if !item.token.isEmpty && !item.salt.isEmpty then
      (item.token, item.salt, false, err0)
    else
      (([] : Str), freshSalt, true, (none : Option GoErr))
  match err with
  | some _ => Except.error GoErr.wrapped
  | none => do
    -- json.Unmarshal(d.Raw, &declaration)
    match d.raw with
    | .str _ => Except.error GoErr.notObject
    | declaration =>
      -- delete(declaration, "ServerToken"); re-marshal; hash with the salt
      let declaration1 := jsonDelete declaration (str "ServerToken")
      let dBytes := marshalJson declaration1
      let dHash := c.hashHex (dBytes ++ creationSalt)
      if !tokenMissing && dHash == token then
        -- no changes: bail without writing
        return (false, db)
      else
        let token := dHash
        let declaration2 := jsonSet declaration1 (str "ServerToken")
          (.str token)
        let dBytes2 := marshalJson declaration2
        let newDeclaration : DsDeclaration :=
          { pk := str "dec#" ++ d.identifier, sk := str "dec#",
            json := dBytes2, token := token,
            salt := if tokenMissing then creationSalt else item.salt,
            typ := d.typ }
        let db1 := putItem db (marshalDsDeclaration newDeclaration)
        let db2 ← writeDeclarationDDM c db1 d.identifier
        return (true, db2)

/-- `DeleteDeclaration`: read the record, `deleteSingleItem` it (the full
record is handed over as the key, so DynamoDB rejects the delete and the
ignored `bool` result is `false`), then delete the group edges found through
the inverse index (those marshal to bare keys and do get deleted).  No DDM
recompute is triggered. -/
def DeleteDeclaration (db : DB) (identifier : Str) :
    Except GoErr (Bool × DB) :=
  let declaration := unmarshalDsDeclaration (str "dec#" ++ identifier)
    (str "dec#")
    (getSingleItemPKSK db (str "dec#" ++ identifier) (str "dec#"))
  let (db1, _) := deleteSingleItem db (marshalDsDeclaration declaration)
  let edges := getReverseItems db1 (str "dec#" ++ identifier) (str "set#")
  let db2 := edges.foldl
    (fun acc it =>
      (deleteSingleItem acc
        (marshalDsGenericItem it.pk it.sk (attrOf it.attrs (str "body")))).1)
    db1
  .ok (true, db2)

/-- `StoreSetDeclaration`: check the declaration exists (error when its
stored JSON is empty), then store the `set# → dec#` edge.  No DDM recompute
is triggered. -/
def StoreSetDeclaration (db : DB) (setName declarationID : Str) :
    Except GoErr (Bool × DB) :=
  let decItem := unmarshalDsDeclaration (str "dec#" ++ declarationID)
    (str "dec#")
    (getSingleItemPKSK db (str "dec#" ++ declarationID) (str "dec#"))
  if decItem.json.isEmpty then
    .error .wrapped
  else
    .ok (true, putItem db
      (marshalDsGenericItem (str "set#" ++ setName)
        (str "dec#" ++ declarationID) []))

/-- `RemoveSetDeclaration`: delete the `set# → dec#` edge (a bare key, so the
delete succeeds).  No DDM recompute is triggered. -/
def RemoveSetDeclaration (db : DB) (setName declarationID : Str) :
    Except GoErr (Bool × DB) :=
  let (db1, _) := deleteSingleItem db
    (marshalDsGenericItem (str "set#" ++ setName)
      (str "dec#" ++ declarationID) [])
  .ok (true, db1)

/-! ## CSV encoding (`encoding/csv` with the default configuration)

`storeStatusValues` writes the value set through `csv.Writer` and
`readStatusValues` reads it back through `csv.Reader`, both left at their
defaults (`Comma = ','`, `UseCRLF = false`, `LazyQuotes = false`,
`TrimLeadingSpace = false`, no comment character).  The two are modelled
below.

On the reader side Go works line by line: `readLine` rewrites a final
`"\r\n"` of every physical line to `"\n"`, and every `'\n'` in the stream
terminates a physical line, so this is the same as one left-to-right pass
replacing each `"\r\n"` by `"\n"` (`csvNormalize`).  After that
normalisation the line structure is irrelevant and `readRecord` is a
character-driven state machine: an unquoted field runs to the next `','`
or `'\n'` and must not contain `'"'`; a quoted field runs from `'"'` to the
matching `'"'` with `""` as an escaped quote, and after the closing quote
only `','`, `'\n'` or the end of input may follow; a line consisting only of
`'\n'` between records is skipped; end of input inside quotes is an error
and otherwise closes the record.  `FieldsPerRecord` handling is subsumed by
the caller's own exactly-four-fields check (either way a mismatching record
surfaces as an error from `readStatusValues`). -/

/-- `unicode.IsSpace` (Go). -/
def goIsSpace (c : Char) : Bool :=
  c.val == 9 || c.val == 10 || c.val == 11 || c.val == 12 || c.val == 13 ||
  c.val == 32 || c.val == 0x85 || c.val == 0xA0 || c.val == 0x1680 ||
  (0x2000 ≤ c.val && c.val ≤ 0x200A) || c.val == 0x2028 ||
  c.val == 0x2029 || c.val == 0x202F || c.val == 0x205F || c.val == 0x3000

/-- `csv.Writer.fieldNeedsQuotes` for `Comma = ','`. -/
def fieldNeedsQuotes : Str → Bool
  | [] => false
  | c :: rest =>
      (c :: rest) == ['\\', '.'] || (c :: rest).contains ',' ||
        (c :: rest).contains '"' || (c :: rest).contains '\r' ||
        (c :: rest).contains '\n' || goIsSpace c

/-- The body of a quoted field as the writer emits it (`"` doubled; with
`UseCRLF = false`, `'\r'` and `'\n'` are copied through verbatim). -/
def csvEscape : Str → Str
  | [] => []
  | '"' :: rest => '"' :: '"' :: csvEscape rest
  | c :: rest => c :: csvEscape rest

/-- One written field. -/
def csvWriteField (f : Str) : Str :=
  if fieldNeedsQuotes f then '"' :: csvEscape f ++ ['"'] else f

/-- One written record: comma-separated fields plus the `'\n'` terminator. -/
def csvWriteRecord : List Str → Str
  | [] => ['\n']
  | [f] => csvWriteField f ++ ['\n']
  | f :: rest => csvWriteField f ++ ',' :: csvWriteRecord rest

/-- `csv.Writer.WriteAll`. -/
def csvWriteAll (records : List (List Str)) : Str :=
  (records.map csvWriteRecord).flatten

/-- The reader's line-ending normalisation (see the section comment). -/
def csvNormalize : Str → Str
  | [] => []
  | '\r' :: '\n' :: rest => '\n' :: csvNormalize rest
  | c :: rest => c :: csvNormalize rest

/-- `csv.Reader` errors. -/
inductive CsvErr where
  /-- a bare `'"'` inside an unquoted field. -/
  | bareQuote
  /-- a malformed quoted field. -/
  | quote
deriving DecidableEq, Repr

/-- Parser position of the reader's state machine. -/
inductive CsvMode where
  /-- before a record (a lone `'\n'` here is a skipped empty line). -/
  | recordStart
  /-- before a field, after a `','`. -/
  | fieldStart
  /-- inside an unquoted field. -/
  | unquoted
  /-- inside a quoted field. -/
  | quoted
  /-- directly behind a `'"'` met inside a quoted field. -/
  | afterQuote
  /-- a reported error; all further input is ignored. -/
  | failed (e : CsvErr)
deriving DecidableEq, Repr

structure CsvState where
  recs : List (List Str)
  cur : List Str
  field : Str
  mode : CsvMode
deriving DecidableEq, Repr

def csvInit : CsvState := ⟨[], [], [], .recordStart⟩

/-- One input character of the reader's state machine. -/
def csvStep (st : CsvState) (c : Char) : CsvState :=
  match st.mode with
  | .failed _ => st
  | .recordStart =>
      if c == '\n' then st
      else if c == '"' then { st with mode := .quoted }
      else if c == ',' then { st with cur := st.cur ++ [[]], mode := .fieldStart }
      else { st with field := [c], mode := .unquoted }
  | .fieldStart =>
      if c == '\n' then
        { st with recs := st.recs ++ [st.cur ++ [[]]], cur := [], field := [],
                  mode := .recordStart }
      else if c == '"' then { st with mode := .quoted }
      else if c == ',' then { st with cur := st.cur ++ [[]] }
      else { st with field := [c], mode := .unquoted }
  | .unquoted =>
      if c == '\n' then
        { st with recs := st.recs ++ [st.cur ++ [st.field]], cur := [],
                  field := [], mode := .recordStart }
      else if c == '"' then { st with mode := .failed .bareQuote }
      else if c == ',' then
        { st with cur := st.cur ++ [st.field], field := [],
                  mode := .fieldStart }
      else { st with field := st.field ++ [c] }
  | .quoted =>
      if c == '"' then { st with mode := .afterQuote }
      else { st with field := st.field ++ [c] }
  | .afterQuote =>
      if c == '"' then { st with field := st.field ++ ['"'], mode := .quoted }
      else if c == ',' then
        { st with cur := st.cur ++ [st.field], field := [],
                  mode := .fieldStart }
      else if c == '\n' then
        { st with recs := st.recs ++ [st.cur ++ [st.field]], cur := [],
                  field := [], mode := .recordStart }
      else { st with mode := .failed .quote }

/-- End of input: close a trailing unterminated record, reject an open
quoted field. -/
def csvFinish (st : CsvState) : Except CsvErr (List (List Str)) :=
  match st.mode with
  | .failed e => .error e
  | .recordStart => .ok st.recs
  | .fieldStart => .ok (st.recs ++ [st.cur ++ [[]]])
  | .unquoted => .ok (st.recs ++ [st.cur ++ [st.field]])
  | .afterQuote => .ok (st.recs ++ [st.cur ++ [st.field]])
  | .quoted => .error .quote

/-- The whole reader: normalise the line endings and run the state machine. -/
def csvReadAll (s : Str) : Except CsvErr (List (List Str)) :=
  csvFinish ((csvNormalize s).foldl csvStep csvInit)

/-! ## Status value storage (`readStatusValues` / `storeStatusValues`) -/

/-- The record written for one status value. -/
def statusValueRecord (v : StatusValue) : List Str :=
  [v.path, v.containerType, v.valueType, v.value]

/-- The CSV body `storeStatusValues` writes for a value set. -/
def encodeStatusValues (values : List StatusValue) : Str :=
  csvWriteAll (values.map statusValueRecord)

/-- `readStatusValues`'s record loop: every record must have exactly four
fields and becomes one status value. -/
def recordsToValues : List (List Str) → Except GoErr (List StatusValue)
  | [] => .ok []
  | [p, ct, vt, v] :: rest => do
      let vs ← recordsToValues rest
      return ⟨p, ct, vt, v⟩ :: vs
  | _ :: _ => .error .recordFields

/-- Decode a stored CSV body back into the value set. -/
def decodeStatusValues (body : Str) : Except GoErr (List StatusValue) :=
  match csvReadAll body with
  | .error _ => .error .csv
  | .ok recs => recordsToValues recs

/-- `readStatusValues`: fetch the enrollment's `status#values` record (an
absent record reads as an empty body, which decodes to the empty set) and
parse its CSV body. -/
def readStatusValues (db : DB) (enrollmentID : Str) :
    Except GoErr (List StatusValue) :=
  decodeStatusValues
    (attrOf (getSingleItemPKSK db (str "enroll#" ++ enrollmentID)
        (str "status#values"))
      (str "body"))

/-- `storeStatusValues`: nothing happens for an empty report value list;
otherwise the current set is read, the report merged in, and the full set
written back. -/
def storeStatusValues (db : DB) (enrollmentID : Str)
    (values : List StatusValue) : Except GoErr DB :=
  if values.length < 1 then .ok db
  else
    match readStatusValues db enrollmentID with
    | .error _ => .error .wrapped
    | .ok curValues =>
        let merged := mergeStatusValues curValues values
        if merged.length < 1 then .ok db
        else
          .ok (putItem db
            (marshalDsGenericItem (str "enroll#" ++ enrollmentID)
              (str "status#values") (encodeStatusValues merged)))

/-! ## Status report ingestion (`StoreDeclarationStatus`) -/

/-- `ddm.DeclarationStatus` (one reported per-declaration status entry). -/
structure DeclarationStatus where
  identifier : Str
  active : Bool
  valid : Str
  serverToken : Str
  manifestType : Str
  reasonsJSON : Str
deriving DecidableEq, Repr

/-- `ddm.StatusError` (one reported error). -/
structure StatusErr where
  path : Str
  errorJSON : Str
deriving DecidableEq, Repr

/-- `ddm.StatusReport` as handed to the storage layer. -/
structure StatusReport where
  raw : Str
  declarations : List DeclarationStatus
  values : List StatusValue
  errors : List StatusErr
deriving DecidableEq, Repr

/-- The `dsDeclarationStatus` item written for one status entry (`now` is
the `time.Now()` text; attributes in marshal order, whole-item overwrite). -/
def declarationStatusItem (enrollmentID : Str) (dec : DeclarationStatus)
    (now : Str) : Item :=
  ⟨str "enroll#" ++ enrollmentID, str "status#dec#" ++ dec.identifier,
    [(str "statusTime", now), (str "statusID", dec.identifier),
     (str "statusActive", if dec.active then str "true" else str "false"),
     (str "statusValid", dec.valid), (str "server-token", dec.serverToken),
     (str "statusType", dec.manifestType),
     (str "statusResons", dec.reasonsJSON)]⟩

/-- `storeStatusDeclarations`: overwrite each reported identifier's status
record wholesale. -/
def storeStatusDeclarations (db : DB) (enrollmentID : Str)
    (declarations : List DeclarationStatus) (now : Str) : DB :=
  declarations.foldl
    (fun acc dec => putItem acc (declarationStatusItem enrollmentID dec now))
    db

/-- The `dsDecError` item appended for one reported error. -/
def statusErrorItem (enrollmentID : Str) (e : StatusErr) (now : Str) : Item :=
  ⟨str "enroll#" ++ enrollmentID,
    str "status#error#" ++ e.path ++ str "#" ++ now,
    [(str "statusTime", now), (str "path", e.path),
     (str "body", e.errorJSON)]⟩

/-- `storeStatusErrors`: append each reported error under its
path-and-timestamp key.  (Go stamps each entry with its own `time.Now()`;
the model uses one timestamp for the whole call.) -/
def storeStatusErrors (db : DB) (enrollmentID : Str)
    (errors : List StatusErr) (now : Str) : DB :=
  errors.foldl
    (fun acc e => putItem acc (statusErrorItem enrollmentID e now)) db

/-- `StoreDeclarationStatus`: persist the raw report snapshot, then the
per-declaration statuses, then the merged value set, then the error log. -/
def StoreDeclarationStatus (db : DB) (enrollmentID : Str)
    (status : StatusReport) (now : Str) : Except GoErr DB := do
  let db1 := putItem db
    (marshalDsGenericItem (str "enroll#" ++ enrollmentID)
      (str "status#last") status.raw)
  let db2 := storeStatusDeclarations db1 enrollmentID status.declarations now
  let db3 ←
    match storeStatusValues db2 enrollmentID status.values with
    | .error _ => Except.error GoErr.wrapped
    | .ok db3 => Except.ok db3
  return storeStatusErrors db3 enrollmentID status.errors now

/-! ## Concrete fixtures

A small concrete world used to evaluate the operations: declarations `D1`
and `D2`, a group `G1` containing `D1`, enrollments `EN1` and `EN2` that are
members of `G1`, and previously-built derived documents for both
enrollments whose bodies mention `D1`. -/

/-- A concrete collaborator instance (any deterministic hash digest and
builder outputs; the builders render the declaration bodies they were
fed). -/
def exCollab : Collab :=
  ⟨fun s => 'H' :: s, fun bs => str "DI:" ++ bs.flatten,
    fun bs => str "TK:" ++ bs.flatten⟩

/-- The uploaded declaration `D1` with payload
`\x7b"Type":"t","Payload":\x7b\x7d\x7d`. -/
def exDecl : Declaration :=
  ⟨str "D1", str "t",
    .objCons (str "Type") (.str (str "t"))
      (.objCons (str "Payload") .objNil .objNil)⟩

/-- The change token `StoreDeclaration` computes for `exDecl` under salt
`salt`. -/
def exToken (c : Collab) (salt : Str) : Str :=
  c.hashHex (marshalJson (jsonDelete exDecl.raw (str "ServerToken")) ++ salt)

/-- The JSON body `StoreDeclaration` persists for `exDecl` under salt
`salt`. -/
def exStoredJson (c : Collab) (salt : Str) : Str :=
  marshalJson (jsonSet (jsonDelete exDecl.raw (str "ServerToken"))
    (str "ServerToken") (.str (exToken c salt)))

/-- The full record `StoreDeclaration` persists for `exDecl` under salt
`salt`. -/
def exStoredRecord (c : Collab) (salt : Str) : Item :=
  marshalDsDeclaration
    ⟨str "dec#D1", str "dec#", exStoredJson c salt, exToken c salt, salt,
      str "t"⟩

def exDeclItem : Item :=
  marshalDsDeclaration
    ⟨str "dec#D1", str "dec#", str "JSONBODY-D1", str "TOK", str "SALT",
      str "t"⟩

def exDecl2Item : Item :=
  marshalDsDeclaration
    ⟨str "dec#D2", str "dec#", str "JSONBODY-D2", str "TOK2", str "SALT2",
      str "t"⟩

def exEdgeG1D1 : Item := ⟨str "set#G1", str "dec#D1", []⟩

def exEdgeEN1G1 : Item := ⟨str "enroll#EN1", str "set#G1", []⟩

def exEdgeEN2G1 : Item := ⟨str "enroll#EN2", str "set#G1", []⟩

def exDocJsonEN1 : Item :=
  ⟨str "enroll#EN1", str "json", [(str "body", str "DI:D1-old")]⟩

def exDocTokensEN1 : Item :=
  ⟨str "enroll#EN1", str "tokens", [(str "body", str "TK:D1-old")]⟩

def exDocJsonEN2 : Item :=
  ⟨str "enroll#EN2", str "json", [(str "body", str "DI:D1-old2")]⟩

def exDocTokensEN2 : Item :=
  ⟨str "enroll#EN2", str "tokens", [(str "body", str "TK:D1-old2")]⟩

def exGraphDB : DB :=
  ⟨[exDeclItem, exDecl2Item, exEdgeG1D1, exEdgeEN1G1, exEdgeEN2G1,
    exDocJsonEN1, exDocTokensEN1, exDocJsonEN2, exDocTokensEN2]⟩

/-- All four fields of a status value are free of a CR directly followed by
an LF (the one byte sequence `encoding/csv` does not round-trip). -/
def goodSV (v : StatusValue) : Bool :=
  !strContains v.path (str "\r\n") && !strContains v.containerType (str "\r\n")
    && !strContains v.valueType (str "\r\n")
    && !strContains v.value (str "\r\n")

/-! # Theorems -/

/-! ## C1, C5: the declaration re-store protocol -/

/-- **C1** (code bug): re-storing a declaration with a byte-identical raw
payload does not return "unchanged".  `StoreDeclaration` hands
`GetItemsSKBeginsWith` a pointer to a single struct where the unmarshal
needs a slice, so the lookup always fails (the error is then overwritten by
the `rand.Read` result) and the stored token and salt are never seen: the
second store behaves as a first-time store — it returns `true`, rewrites
the record under a fresh salt (`salt2`) and re-enters the cascade, instead
of the claimed `(false, nil)` with no write. -/
theorem StoreDeclaration_restore_not_unchanged (c : Collab)
    (salt1 salt2 : Str) (h : salt1 ≠ salt2) :
    StoreDeclaration c ⟨[]⟩ salt1 exDecl =
      .ok (true, ⟨[exStoredRecord c salt1]⟩) ∧
    StoreDeclaration c ⟨[exStoredRecord c salt1]⟩ salt2 exDecl =
      .ok (true, ⟨[exStoredRecord c salt2]⟩) ∧
    (⟨[exStoredRecord c salt2]⟩ : DB) ≠ ⟨[exStoredRecord c salt1]⟩ := by
  refine ⟨rfl, rfl, fun hEq => h ?_⟩
  have h2 := congrArg
    (fun db => attrOf (getSingleItemPKSK db (str "dec#D1") (str "dec#"))
      (str "salt")) hEq
  exact h2.symm

theorem StoreDeclaration_restore_not_unchanged_witness :
    str "A" ≠ str "B" ∧
    (StoreDeclaration exCollab ⟨[]⟩ (str "A") exDecl =
        .ok (true, ⟨[exStoredRecord exCollab (str "A")]⟩) ∧
      StoreDeclaration exCollab ⟨[exStoredRecord exCollab (str "A")]⟩
          (str "B") exDecl =
        .ok (true, ⟨[exStoredRecord exCollab (str "B")]⟩) ∧
      (⟨[exStoredRecord exCollab (str "B")]⟩ : DB) ≠
        ⟨[exStoredRecord exCollab (str "A")]⟩) :=
  ⟨by decide,
    StoreDeclaration_restore_not_unchanged exCollab (str "A") (str "B")
      (by decide)⟩

/-- **C5** (code bug): the creation salt is regenerated on every store.  The
persisted salt after the first store is that call's fresh salt, and the
persisted salt after a re-store of the identical payload is the *second*
call's fresh salt — the stored salt is never reused (same root cause as
C1: the record lookup always fails). -/
theorem StoreDeclaration_salt_regenerated (c : Collab) (salt1 salt2 : Str) :
    (StoreDeclaration c ⟨[]⟩ salt1 exDecl).map
        (fun r => attrOf (getSingleItemPKSK r.2 (str "dec#D1") (str "dec#"))
          (str "salt")) = .ok salt1 ∧
    (StoreDeclaration c ⟨[exStoredRecord c salt1]⟩ salt2 exDecl).map
        (fun r => attrOf (getSingleItemPKSK r.2 (str "dec#D1") (str "dec#"))
          (str "salt")) = .ok salt2 :=
  ⟨rfl, rfl⟩

/-! ## C2, C3, C4, C8: edges, deletion and the cascade -/

/-- **C2** (code bug): storing or removing a Group↔Declaration edge triggers
no recompute at all.  In the concrete graph, `EN1` is a member of `G1`
(last conjunct), yet adding `D2` to `G1` and removing `D1` from `G1` both
leave `EN1`'s derived `json`/`tokens` documents byte-identically in place —
neither function calls `writeSetDDM`. -/
theorem setDeclarationEdge_no_recompute :
    (StoreSetDeclaration exGraphDB (str "G1") (str "D2")).map
        (fun r => (r.1, getItem r.2 (str "set#G1") (str "dec#D2"),
          getItem r.2 (str "enroll#EN1") (str "json"),
          getItem r.2 (str "enroll#EN1") (str "tokens"))) =
      .ok (true, some ⟨str "set#G1", str "dec#D2", []⟩, some exDocJsonEN1,
        some exDocTokensEN1) ∧
    (RemoveSetDeclaration exGraphDB (str "G1") (str "D1")).map
        (fun r => (r.1, getItem r.2 (str "set#G1") (str "dec#D1"),
          getItem r.2 (str "enroll#EN1") (str "json"),
          getItem r.2 (str "enroll#EN1") (str "tokens"))) =
      .ok (true, none, some exDocJsonEN1, some exDocTokensEN1) ∧
    getItem exGraphDB (str "enroll#EN1") (str "set#G1") = some exEdgeEN1G1 := by
  decide

/-- **C3** (code bug): `DeleteDeclaration` removes the group edges but not
the declaration record (the whole record is passed to `DeleteItem` as the
key, which DynamoDB rejects, and the `bool` result is dropped), and it
triggers no recompute: `EN1`'s derived documents remain byte-identical and
still mention `D1`. -/
theorem DeleteDeclaration_keeps_record_no_recompute :
    (DeleteDeclaration exGraphDB (str "D1")).map
        (fun r => (r.1, getItem r.2 (str "dec#D1") (str "dec#"),
          getItem r.2 (str "set#G1") (str "dec#D1"),
          getItem r.2 (str "enroll#EN1") (str "json"),
          getItem r.2 (str "enroll#EN1") (str "tokens"))) =
      .ok (true, some exDeclItem, none, some exDocJsonEN1,
        some exDocTokensEN1) ∧
    strContains (attrOf exDocJsonEN1.attrs (str "body")) (str "D1") = true := by
  decide

/-- **C4** (code bug): the enrollments-of-declaration query always returns
the empty list — it issues a forward query `pk = "dec#"+I, sk begins with
"set#"` although the group edges are stored inverted — even though the
store knows (via the working set-enrollment query) that `EN1` and `EN2` are
members of the group `G1` that contains `D1`. -/
theorem declarationEnrollmentIDs_always_empty_on_graph :
    RetrieveDeclarationEnrollmentIDs exGraphDB (str "D1") = .ok [] ∧
    getItem exGraphDB (str "set#G1") (str "dec#D1") = some exEdgeG1D1 ∧
    RetrieveSetEnrollmentIDs exGraphDB (str "G1") =
      .ok [str "EN1", str "EN2"] := by
  decide

/-- **C8** (code bug): the cascade drivers recompute no enrollment at all.
`writeSetDDM` queries `pk = "set#"+S, sk begins with "enroll#"` and
`writeDeclarationDDM` relies on `declarationEnrollmentIDs`; both always see
an empty affected list (the edges are stored in the other key order), so on
a graph where `G1` demonstrably has the two members `EN1` and `EN2`, both
cascades return with the database — including both enrollments' stale
derived documents — completely untouched.  (Independently, their loops
`return err` at the first failed enrollment rather than continuing with the
rest.) -/
theorem cascade_recomputes_no_enrollment :
    writeSetDDM exCollab exGraphDB (str "G1") = .ok exGraphDB ∧
    writeDeclarationDDM exCollab exGraphDB (str "D1") = .ok exGraphDB ∧
    RetrieveSetEnrollmentIDs exGraphDB (str "G1") =
      .ok [str "EN1", str "EN2"] ∧
    getItem exGraphDB (str "enroll#EN1") (str "json") = some exDocJsonEN1 ∧
    getItem exGraphDB (str "enroll#EN2") (str "json") = some exDocJsonEN2 := by
  decide

/-! ## C6: the status-value merge -/

theorem svMatch_iff (v w : StatusValue) : svMatch v w = true ↔ v = w := by
  cases v with
  | mk p c t x =>
    cases w with
    | mk p2 c2 t2 x2 =>
      simp only [svMatch, Bool.and_eq_true, beq_iff_eq, StatusValue.mk.injEq]
      tauto

theorem matchCount_eq_count (l : List StatusValue) (v : StatusValue) :
    matchCount l v = l.count v := by
  induction l with
  | nil => rfl
  | cons w rest ih =>
      by_cases h : v = w
      · subst h
        simp [matchCount, List.filter, (svMatch_iff v v).2 rfl,
          List.count_cons] at *
        omega
      · have hb : svMatch v w = false := by
          cases hm : svMatch v w
          · rfl
          · exact absurd ((svMatch_iff v w).1 hm) h
        have hb2 : (w == v) = false := by
          simp only [beq_eq_false_iff_ne, ne_eq]
          exact fun he => h he.symm
        simp [matchCount, List.filter, hb, List.count_cons, hb2] at *
        exact ih

theorem containsValueAux_neg (v : StatusValue) :
    ∀ (l : List StatusValue) (i : Int), 0 ≤ i →
      (containsValueAux v i l < 0 ↔ v ∉ l) := by
  intro l
  induction l with
  | nil =>
      intro i _
      simp [containsValueAux]
  | cons w rest ih =>
      intro i hi
      by_cases h : svMatch v w = true
      · have hvw : v = w := (svMatch_iff v w).1 h
        simp only [containsValueAux, h, if_true, List.mem_cons]
        constructor
        · intro hlt; omega
        · intro hmem; exact absurd (Or.inl hvw) hmem
      · have hvw : v ≠ w := fun he => h ((svMatch_iff v w).2 he)
        have hb : svMatch v w = false := by
          cases hm : svMatch v w
          · rfl
          · exact absurd hm h
        simp only [containsValueAux, hb, Bool.false_eq_true, if_false,
          List.mem_cons]
        rw [ih (i + 1) (by omega)]
        constructor
        · intro hn hor
          exact hn (hor.resolve_left hvw)
        · intro hn hmem
          exact hn (Or.inr hmem)

theorem containsValue_neg_iff (l : List StatusValue) (v : StatusValue) :
    containsValue l v < 0 ↔ v ∉ l :=
  containsValueAux_neg v l 0 (by omega)

/-- The loop of `mergeStatusValues` only ever appends. -/
theorem mergeLoop_append (src : List StatusValue) :
    ∀ ret : List StatusValue,
      ∃ tail,
        src.foldl
          (fun ret srcValue =>
            if containsValue ret srcValue < 0 then ret ++ [srcValue] else ret)
          ret = ret ++ tail := by
  induction src with
  | nil => intro ret; exact ⟨[], by simp⟩
  | cons w ws ih =>
      intro ret
      by_cases h : containsValue ret w < 0
      · obtain ⟨t, ht⟩ := ih (ret ++ [w])
        exact ⟨[w] ++ t, by simp [List.foldl_cons, h, ht]⟩
      · obtain ⟨t, ht⟩ := ih ret
        exact ⟨t, by simp [List.foldl_cons, h, ht]⟩

/-- The loop never adds a tuple that already occurs in the accumulator. -/
theorem mergeLoop_count_mem (v : StatusValue) (src : List StatusValue) :
    ∀ ret : List StatusValue, v ∈ ret →
      (src.foldl
          (fun ret srcValue =>
            if containsValue ret srcValue < 0 then ret ++ [srcValue] else ret)
          ret).count v = ret.count v := by
  induction src with
  | nil => intro ret _; rfl
  | cons w ws ih =>
      intro ret hv
      by_cases h : containsValue ret w < 0
      · have hw : w ∉ ret := (containsValue_neg_iff ret w).1 h
        have hwv : (w == v) = false := by
          simp only [beq_eq_false_iff_ne, ne_eq]
          exact fun he => hw (he ▸ hv)
        have := ih (ret ++ [w]) (List.mem_append_left _ hv)
        simp only [List.foldl_cons, h, if_true] at *
        rw [this, List.count_append]
        simp [List.count_cons, hwv]
      · have := ih ret hv
        simp only [List.foldl_cons, h, if_false] at *
        rw [this]

/-- A tuple absent from the accumulator but present in the report ends up
with exactly one extra occurrence. -/
theorem mergeLoop_count_new (v : StatusValue) (src : List StatusValue) :
    ∀ ret : List StatusValue, v ∉ ret → v ∈ src →
      (src.foldl
          (fun ret srcValue =>
            if containsValue ret srcValue < 0 then ret ++ [srcValue] else ret)
          ret).count v = ret.count v + 1 := by
  induction src with
  | nil => intro ret _ hmem; exact absurd hmem (List.not_mem_nil v)
  | cons w ws ih =>
      intro ret hv hmem
      by_cases hwv : w = v
      · subst hwv
        have h : containsValue ret w < 0 := (containsValue_neg_iff ret w).2 hv
        have hmm : w ∈ ret ++ [w] := List.mem_append_right _ (by simp)
        have := mergeLoop_count_mem w ws (ret ++ [w]) hmm
        simp only [List.foldl_cons, h, if_true] at *
        rw [this, List.count_append]
        simp [List.count_cons]
      · have hmem2 : v ∈ ws := (List.mem_cons.1 hmem).resolve_left
          (fun he => hwv he.symm)
        by_cases h : containsValue ret w < 0
        · have hv2 : v ∉ ret ++ [w] := by
            intro hc
            rcases List.mem_append.1 hc with hc1 | hc2
            · exact hv hc1
            · exact hwv (List.mem_singleton.1 hc2).symm
          have := ih (ret ++ [w]) hv2 hmem2
          have hwvb : (w == v) = false := by
            simp only [beq_eq_false_iff_ne, ne_eq]; exact hwv
          simp only [List.foldl_cons, h, if_true] at *
          rw [this, List.count_append]
          simp [List.count_cons, hwvb]
        · have := ih ret hv hmem2
          simp only [List.foldl_cons, h, if_false] at *
          rw [this]

/-- **C6** (confirmed): merging a status report into the stored value set
(a) only appends — every stored tuple survives, the set grows
monotonically; (b) a tuple that already has exactly one four-field match in
the stored set still has exactly one match afterwards (re-ingesting adds no
duplicate, however often the report repeats it); and (c) a tuple with no
four-field match in the stored set (e.g. one differing only in its value)
that occurs in the report is appended as exactly one additional, distinct
entry. -/
theorem mergeStatusValues_dedup_monotone (dst src : List StatusValue)
    (v : StatusValue) :
    (∃ tail, mergeStatusValues dst src = dst ++ tail) ∧
    (matchCount dst v = 1 → matchCount (mergeStatusValues dst src) v = 1) ∧
    (matchCount dst v = 0 → v ∈ src →
      matchCount (mergeStatusValues dst src) v = 1) := by
  have hms : mergeStatusValues dst src =
      src.foldl
        (fun ret srcValue =>
          if containsValue ret srcValue < 0 then ret ++ [srcValue] else ret)
        dst := by
    simp [mergeStatusValues]
  refine ⟨?_, ?_, ?_⟩
  · rw [hms]; exact mergeLoop_append src dst
  · intro h1
    have hvmem : v ∈ dst := by
      rw [matchCount_eq_count] at h1
      exact List.count_pos_iff.1 (by omega)
    rw [matchCount_eq_count, hms, mergeLoop_count_mem v src dst hvmem,
      ← matchCount_eq_count, h1]
  · intro h0 hmem
    have hvno : v ∉ dst := by
      rw [matchCount_eq_count] at h0
      exact List.count_eq_zero.1 h0
    rw [matchCount_eq_count, hms, mergeLoop_count_new v src dst hvno hmem,
      ← matchCount_eq_count, h0]

theorem mergeStatusValues_dedup_monotone_witness :
    matchCount
        (mergeStatusValues [⟨str "p", str "c", str "t", str "v1"⟩]
          [⟨str "p", str "c", str "t", str "v1"⟩,
            ⟨str "p", str "c", str "t", str "v2"⟩])
        ⟨str "p", str "c", str "t", str "v1"⟩ = 1 ∧
    matchCount
        (mergeStatusValues [⟨str "p", str "c", str "t", str "v1"⟩]
          [⟨str "p", str "c", str "t", str "v1"⟩,
            ⟨str "p", str "c", str "t", str "v2"⟩])
        ⟨str "p", str "c", str "t", str "v2"⟩ = 1 :=
  ⟨(mergeStatusValues_dedup_monotone _ _ _).2.1 (by decide),
    (mergeStatusValues_dedup_monotone _ _ _).2.2 (by decide) (by decide)⟩

/-! ## C7: the path filter grammar -/

theorem strContains_iff (s sub : Str) :
    strContains s sub = true ↔ ∃ l r, s = l ++ sub ++ r := by
  induction s with
  | nil =>
      simp only [strContains, List.isEmpty_iff]
      constructor
      · intro h; exact ⟨[], [], by simp [h]⟩
      · rintro ⟨l, r, hlr⟩
        have := hlr.symm
        simp only [List.append_eq_nil] at this
        exact this.1.2
  | cons c rest ih =>
      simp only [strContains, Bool.or_eq_true, List.isPrefixOf_iff_prefix, ih]
      constructor
      · rintro (⟨t, ht⟩ | ⟨l, r, hlr⟩)
        · exact ⟨[], t, by simp [← ht]⟩
        · exact ⟨c :: l, r, by simp [hlr]⟩
      · rintro ⟨l, r, hlr⟩
        cases l with
        | nil => exact Or.inl ⟨r, by simpa using hlr.symm⟩
        | cons c2 l2 =>
            right
            simp only [List.cons_append, List.cons.injEq] at hlr
            exact ⟨l2, r, hlr.2⟩

theorem strPercent_eq : str "%" = ['%'] := rfl

theorem percent_pre_cons (xs : Str) :
    (str "%").isPrefixOf ('%' :: xs) = true := by
  rw [strPercent_eq]
  exact List.isPrefixOf_iff_prefix.2 ⟨xs, rfl⟩

theorem percent_pre_append_false (inner t : Str) (h1 : inner ≠ [])
    (h2 : inner.head? ≠ some '%') :
    (str "%").isPrefixOf (inner ++ t) = false := by
  cases inner with
  | nil => exact absurd rfl h1
  | cons c rest =>
      have hc : c ≠ '%' := fun he => h2 (by simp [he])
      cases hp : (str "%").isPrefixOf ((c :: rest) ++ t)
      · rfl
      · exfalso
        obtain ⟨u, hu⟩ := List.isPrefixOf_iff_prefix.1 hp
        rw [strPercent_eq] at hu
        simp only [List.cons_append, List.cons.injEq] at hu
        exact hc hu.1.symm

theorem percent_pre_self_false (inner : Str) (h1 : inner ≠ [])
    (h2 : inner.head? ≠ some '%') :
    (str "%").isPrefixOf inner = false := by
  have := percent_pre_append_false inner [] h1 h2
  simpa using this

theorem percent_suf_concat (xs : Str) :
    (str "%").isSuffixOf (xs ++ ['%']) = true := by
  rw [strPercent_eq]
  exact List.isSuffixOf_iff_suffix.2 ⟨xs, rfl⟩

theorem percent_suf_self_false (inner : Str) (h3 : inner.getLast? ≠ some '%') :
    (str "%").isSuffixOf inner = false := by
  cases hp : (str "%").isSuffixOf inner
  · rfl
  · exfalso
    obtain ⟨u, hu⟩ := List.isSuffixOf_iff_suffix.1 hp
    rw [strPercent_eq] at hu
    exact h3 (hu ▸ List.getLast?_concat u)

theorem percent_suf_cons_false (inner : Str) (h1 : inner ≠ [])
    (h3 : inner.getLast? ≠ some '%') :
    (str "%").isSuffixOf ('%' :: inner) = false := by
  cases hp : (str "%").isSuffixOf ('%' :: inner)
  · rfl
  · exfalso
    obtain ⟨u, hu⟩ := List.isSuffixOf_iff_suffix.1 hp
    rw [strPercent_eq] at hu
    have hlast : ('%' :: inner).getLast? = some '%' :=
      hu ▸ List.getLast?_concat u
    cases inner with
    | nil => exact h1 rfl
    | cons c2 rest => rw [List.getLast?_cons_cons] at hlast; exact h3 hlast

/-- Counterexample to C7 as stated: with pattern `%a%`, the stored path `a`
contains `a`, yet the filter drops it — the substring branch is guarded by
`len(v.Path) >= 3` on the *stored path*, and the fallback suffix comparison
is made against `a%` (marker included), which a one-byte path cannot
match. -/
theorem filterPathPrefix_substring_miss :
    filterPathPrefix [⟨str "a", str "c", str "t", str "v"⟩] (str "%a%") =
      [] ∧
    strContains (str "a") (str "a") = true := by decide

/-- **C7** (corrected): for a marker-free core `inner`, pattern
`%inner%` matches a stored path of length ≥ 3 iff the path contains
`inner`, but a stored path of length < 3 iff the path ends with
`inner ++ "%"` (marker included — the deviation from the claim); pattern
`inner%` matches iff the path starts with `inner`; pattern `%inner`
matches iff the path ends with `inner`; and a bare `inner` matches exactly
the path `inner`. -/
theorem pathMatches_spec (p inner : Str) (h1 : inner ≠ [])
    (h2 : inner.head? ≠ some '%') (h3 : inner.getLast? ≠ some '%') :
    ((3 ≤ p.length →
        (pathMatches p ('%' :: inner ++ ['%']) = true ↔
          ∃ l r, p = l ++ inner ++ r)) ∧
      (p.length < 3 →
        (pathMatches p ('%' :: inner ++ ['%']) = true ↔
          ∃ l, p = l ++ (inner ++ ['%'])))) ∧
    (pathMatches p (inner ++ ['%']) = true ↔ ∃ r, p = inner ++ r) ∧
    (pathMatches p ('%' :: inner) = true ↔ ∃ l, p = l ++ inner) ∧
    (pathMatches p inner = true ↔ p = inner) := by
  refine ⟨⟨?_, ?_⟩, ?_, ?_, ?_⟩
  · -- `%inner%`, long path: substring branch
    intro hlen
    have hpre : (str "%").isPrefixOf ('%' :: (inner ++ ['%'])) = true :=
      percent_pre_cons _
    have hsuf : (str "%").isSuffixOf (('%' :: inner) ++ ['%']) = true :=
      percent_suf_concat _
    simp only [pathMatches, List.cons_append] at *
    rw [hpre, hsuf]
    rw [if_pos ⟨hlen, rfl, rfl⟩]
    have hdrop : (('%' :: (inner ++ ['%'])).drop 1).dropLast = inner := by
      simp [List.dropLast_concat]
    rw [hdrop, strContains_iff]
  · -- `%inner%`, short path: falls through to the suffix branch,
    -- comparing against `inner%`
    intro hlen
    have hpre : (str "%").isPrefixOf ('%' :: (inner ++ ['%'])) = true :=
      percent_pre_cons _
    simp only [pathMatches, List.cons_append] at *
    rw [hpre]
    rw [if_neg (by intro hand; omega)]
    rw [if_pos rfl]
    have hdrop : ('%' :: (inner ++ ['%'])).drop 1 = inner ++ ['%'] := by simp
    rw [hdrop, List.isSuffixOf_iff_suffix]
    constructor
    · rintro ⟨l, hl⟩; exact ⟨l, hl.symm⟩
    · rintro ⟨l, hl⟩; exact ⟨l, hl.symm⟩
  · -- `inner%`: prefix branch
    have hpre : (str "%").isPrefixOf (inner ++ ['%']) = false :=
      percent_pre_append_false inner ['%'] h1 h2
    have hsuf : (str "%").isSuffixOf (inner ++ ['%']) = true :=
      percent_suf_concat _
    simp only [pathMatches] at *
    rw [hpre, hsuf]
    rw [if_neg (by intro hand; exact absurd hand.2.1 (by simp))]
    rw [if_neg (by simp)]
    rw [if_pos rfl]
    rw [List.dropLast_concat, List.isPrefixOf_iff_prefix]
    constructor
    · rintro ⟨r, hr⟩; exact ⟨r, hr.symm⟩
    · rintro ⟨r, hr⟩; exact ⟨r, hr.symm⟩
  · -- `%inner`: suffix branch
    have hpre : (str "%").isPrefixOf ('%' :: inner) = true :=
      percent_pre_cons _
    have hsuf : (str "%").isSuffixOf ('%' :: inner) = false :=
      percent_suf_cons_false inner h1 h3
    simp only [pathMatches] at *
    rw [hpre, hsuf]
    rw [if_neg (by intro hand; exact absurd hand.2.2 (by simp))]
    rw [if_pos rfl]
    have hdrop : ('%' :: inner).drop 1 = inner := by simp
    rw [hdrop, List.isSuffixOf_iff_suffix]
    constructor
    · rintro ⟨l, hl⟩; exact ⟨l, hl.symm⟩
    · rintro ⟨l, hl⟩; exact ⟨l, hl.symm⟩
  · -- bare `inner`: exact equality
    have hpre : (str "%").isPrefixOf inner = false :=
      percent_pre_self_false inner h1 h2
    have hsuf : (str "%").isSuffixOf inner = false :=
      percent_suf_self_false inner h3
    simp only [pathMatches] at *
    rw [hpre, hsuf]
    rw [if_neg (by intro hand; exact absurd hand.2.1 (by simp))]
    rw [if_neg (by simp)]
    rw [if_neg (by simp)]
    exact beq_iff_eq
theorem pathMatches_spec_witness :
    pathMatches (str "xfooy") ('%' :: str "foo" ++ ['%']) = true ↔
      ∃ l r, str "xfooy" = l ++ str "foo" ++ r :=
  ((pathMatches_spec (str "xfooy") (str "foo") (by decide) (by decide)
      (by decide)).1).1 (by decide)

/-! ## C10: ingesting a report with no values -/

theorem getItem_putItem_same (db : DB) (it : Item) :
    getItem (putItem db it) it.pk it.sk = some it := by
  simp [getItem, putItem, List.find?_cons]

theorem find?_filter_eq {α : Type} (p q : α → Bool) (l : List α)
    (h : ∀ j, q j = false → p j = false) :
    (l.filter q).find? p = l.find? p := by
  induction l with
  | nil => rfl
  | cons j l2 ih =>
      rw [List.filter_cons]
      cases hq : q j with
      | false =>
          simp only [Bool.false_eq_true, if_false]
          rw [ih, List.find?_cons, h j hq]
      | true =>
          simp only [if_true]
          rw [List.find?_cons, List.find?_cons]
          cases p j
          · exact ih
          · rfl

theorem getItem_putItem_other (db : DB) (it : Item) (pk sk : Str)
    (h : ¬(pk = it.pk ∧ sk = it.sk)) :
    getItem (putItem db it) pk sk = getItem db pk sk := by
  have hhead : (it.pk == pk && it.sk == sk) = false := by
    by_cases hpk : it.pk = pk
    · by_cases hsk : it.sk = sk
      · exact absurd ⟨hpk.symm, hsk.symm⟩ h
      · simp [hsk]
    · simp [hpk]
  simp only [getItem, putItem]
  rw [List.find?_cons, hhead]
  refine find?_filter_eq _ _ db.items ?_
  intro j hq
  rw [Bool.not_eq_false'] at hq
  simp only [Bool.and_eq_true, beq_iff_eq] at hq
  rw [hq.1, hq.2]
  exact hhead

theorem ne_append_left (p a q : Str) (h : q.take p.length ≠ p) :
    p ++ a ≠ q := by
  intro he
  apply h
  rw [← he, List.take_left]

theorem append_ne_append (p q a b : Str) (hl : p.length = q.length)
    (h : p ≠ q) : p ++ a ≠ q ++ b := by
  intro he
  exact h (List.append_inj he hl).1

theorem statusDec_sk_ne_values (id : Str) :
    str "status#dec#" ++ id ≠ str "status#values" :=
  ne_append_left (str "status#dec#") id (str "status#values") (by decide)

theorem statusDec_sk_ne_last (id : Str) :
    str "status#dec#" ++ id ≠ str "status#last" :=
  ne_append_left (str "status#dec#") id (str "status#last") (by decide)

theorem statusError_sk_ne_values (path now : Str) :
    str "status#error#" ++ path ++ str "#" ++ now ≠ str "status#values" :=
  fun h =>
    ne_append_left (str "status#error#") ((path ++ str "#") ++ now)
      (str "status#values") (by decide) h

theorem statusError_sk_ne_last (path now : Str) :
    str "status#error#" ++ path ++ str "#" ++ now ≠ str "status#last" :=
  fun h =>
    ne_append_left (str "status#error#") ((path ++ str "#") ++ now)
      (str "status#last") (by decide) h

theorem statusError_sk_ne_dec (path now id : Str) :
    str "status#error#" ++ path ++ str "#" ++ now ≠ str "status#dec#" ++ id :=
  fun h =>
    append_ne_append (str "status#e") (str "status#d")
      (str "rror#" ++ ((path ++ str "#") ++ now)) (str "ec#" ++ id)
      (by decide) (by decide) h

theorem statusError_sk_inj (path path2 now : Str)
    (h : str "status#error#" ++ path ++ str "#" ++ now =
      str "status#error#" ++ path2 ++ str "#" ++ now) : path = path2 := by
  have h2 : (path ++ str "#") ++ now = (path2 ++ str "#") ++ now :=
    List.append_cancel_left
      (show str "status#error#" ++ ((path ++ str "#") ++ now) =
        str "status#error#" ++ ((path2 ++ str "#") ++ now) from h)
  exact List.append_cancel_right (List.append_cancel_right h2)

theorem getItem_storeStatusDeclarations_other (e now pk sk : Str)
    (ds : List DeclarationStatus) :
    ∀ db : DB,
      (∀ d ∈ ds,
        ¬(pk = str "enroll#" ++ e ∧ sk = str "status#dec#" ++ d.identifier)) →
      getItem (storeStatusDeclarations db e ds now) pk sk =
        getItem db pk sk := by
  induction ds with
  | nil => intro db _; rfl
  | cons d rest ih =>
      intro db h
      show getItem (storeStatusDeclarations (putItem db
        (declarationStatusItem e d now)) e rest now) pk sk = getItem db pk sk
      rw [ih _ (fun d2 hd2 => h d2 (List.mem_cons_of_mem _ hd2))]
      exact getItem_putItem_other db _ pk sk (h d (List.mem_cons_self ..))

theorem getItem_storeStatusDeclarations_mem (e now : Str)
    (ds : List DeclarationStatus) :
    ∀ db : DB, (ds.map (fun d => d.identifier)).Nodup →
      ∀ d ∈ ds,
        getItem (storeStatusDeclarations db e ds now) (str "enroll#" ++ e)
            (str "status#dec#" ++ d.identifier) =
          some (declarationStatusItem e d now) := by
  induction ds with
  | nil => intro db _ d hd; exact absurd hd (List.not_mem_nil d)
  | cons d0 rest ih =>
      intro db hnd d hd
      rw [List.map_cons, List.nodup_cons] at hnd
      show getItem (storeStatusDeclarations (putItem db
        (declarationStatusItem e d0 now)) e rest now) (str "enroll#" ++ e)
          (str "status#dec#" ++ d.identifier) =
        some (declarationStatusItem e d now)
      rcases List.mem_cons.1 hd with he | hmem
      · subst he
        rw [getItem_storeStatusDeclarations_other _ _ _ _ rest _ (by
          intro d2 hd2 hand
          have hid : d.identifier = d2.identifier :=
            List.append_cancel_left
              (show str "status#dec#" ++ d.identifier =
                str "status#dec#" ++ d2.identifier from hand.2)
          exact hnd.1 (hid ▸ List.mem_map_of_mem _ hd2))]
        exact getItem_putItem_same db (declarationStatusItem e d now)
      · exact ih (putItem db _) hnd.2 d hmem

theorem getItem_storeStatusErrors_other (e now pk sk : Str)
    (errs : List StatusErr) :
    ∀ db : DB,
      (∀ er ∈ errs,
        ¬(pk = str "enroll#" ++ e ∧
          sk = str "status#error#" ++ er.path ++ str "#" ++ now)) →
      getItem (storeStatusErrors db e errs now) pk sk = getItem db pk sk := by
  induction errs with
  | nil => intro db _; rfl
  | cons er rest ih =>
      intro db h
      show getItem (storeStatusErrors (putItem db
        (statusErrorItem e er now)) e rest now) pk sk = getItem db pk sk
      rw [ih _ (fun e2 he2 => h e2 (List.mem_cons_of_mem _ he2))]
      exact getItem_putItem_other db _ pk sk (h er (List.mem_cons_self ..))

theorem getItem_storeStatusErrors_mem (e now : Str) (errs : List StatusErr) :
    ∀ db : DB, (errs.map (fun er => er.path)).Nodup →
      ∀ er ∈ errs,
        getItem (storeStatusErrors db e errs now) (str "enroll#" ++ e)
            (str "status#error#" ++ er.path ++ str "#" ++ now) =
          some (statusErrorItem e er now) := by
  induction errs with
  | nil => intro db _ er her; exact absurd her (List.not_mem_nil er)
  | cons er0 rest ih =>
      intro db hnd er her
      rw [List.map_cons, List.nodup_cons] at hnd
      show getItem (storeStatusErrors (putItem db
        (statusErrorItem e er0 now)) e rest now) (str "enroll#" ++ e)
          (str "status#error#" ++ er.path ++ str "#" ++ now) =
        some (statusErrorItem e er now)
      rcases List.mem_cons.1 her with he | hmem
      · subst he
        rw [getItem_storeStatusErrors_other _ _ _ _ rest _ (by
          intro e2 he2 hand
          have hp : er.path = e2.path := statusError_sk_inj _ _ _ hand.2
          exact hnd.1 (hp ▸ List.mem_map_of_mem _ he2))]
        exact getItem_putItem_same db (statusErrorItem e er now)
      · exact ih (putItem db _) hnd.2 er hmem

/-- **C10** (confirmed): ingesting a report whose value list is empty leaves
the enrollment's stored `status#values` record untouched
(`storeStatusValues` returns before reading or writing anything), while the
raw-report snapshot is overwritten, every reported per-declaration status
record is rewritten wholesale, and every reported error is appended under
its path-and-timestamp key. -/
theorem StoreDeclarationStatus_empty_values_frame (db : DB) (e : Str)
    (report : StatusReport) (now : Str) (hv : report.values = [])
    (hd : (report.declarations.map (fun d => d.identifier)).Nodup)
    (he : (report.errors.map (fun er => er.path)).Nodup) :
    ∃ db4, StoreDeclarationStatus db e report now = .ok db4 ∧
      getItem db4 (str "enroll#" ++ e) (str "status#values") =
        getItem db (str "enroll#" ++ e) (str "status#values") ∧
      getItem db4 (str "enroll#" ++ e) (str "status#last") =
        some (marshalDsGenericItem (str "enroll#" ++ e) (str "status#last")
          report.raw) ∧
      (∀ d ∈ report.declarations,
        getItem db4 (str "enroll#" ++ e)
            (str "status#dec#" ++ d.identifier) =
          some (declarationStatusItem e d now)) ∧
      (∀ er ∈ report.errors,
        getItem db4 (str "enroll#" ++ e)
            (str "status#error#" ++ er.path ++ str "#" ++ now) =
          some (statusErrorItem e er now)) := by
  refine ⟨storeStatusErrors (storeStatusDeclarations (putItem db
      (marshalDsGenericItem (str "enroll#" ++ e) (str "status#last")
        report.raw)) e report.declarations now) e report.errors now,
    ?_, ?_, ?_, ?_, ?_⟩
  · unfold StoreDeclarationStatus
    rw [hv]
    rfl
  · rw [getItem_storeStatusErrors_other _ _ _ _ report.errors _
      (fun er _ hand => statusError_sk_ne_values er.path now hand.2.symm)]
    rw [getItem_storeStatusDeclarations_other _ _ _ _ report.declarations _
      (fun d _ hand => statusDec_sk_ne_values d.identifier hand.2.symm)]
    exact getItem_putItem_other db _ _ _
      (fun hand =>
        absurd hand.2 (show ¬str "status#values" = str "status#last" by
          decide))
  · rw [getItem_storeStatusErrors_other _ _ _ _ report.errors _
      (fun er _ hand => statusError_sk_ne_last er.path now hand.2.symm)]
    rw [getItem_storeStatusDeclarations_other _ _ _ _ report.declarations _
      (fun d _ hand => statusDec_sk_ne_last d.identifier hand.2.symm)]
    exact getItem_putItem_same db _
  · intro d hd2
    rw [getItem_storeStatusErrors_other _ _ _ _ report.errors _
      (fun er _ hand =>
        statusError_sk_ne_dec er.path now d.identifier hand.2.symm)]
    exact getItem_storeStatusDeclarations_mem e now report.declarations _
      hd d hd2
  · intro er her
    exact getItem_storeStatusErrors_mem e now report.errors _ he er her

theorem StoreDeclarationStatus_empty_values_frame_witness :
    ∃ db4,
      StoreDeclarationStatus ⟨[]⟩ (str "E")
          ⟨str "RAW", [⟨str "D1", true, str "valid", str "TOK", str "", str ""⟩],
            [], [⟨str "pp", str "EJ"⟩]⟩ (str "T1") = .ok db4 ∧
      getItem db4 (str "enroll#" ++ str "E") (str "status#values") =
        getItem ⟨[]⟩ (str "enroll#" ++ str "E") (str "status#values") ∧
      getItem db4 (str "enroll#" ++ str "E") (str "status#last") =
        some (marshalDsGenericItem (str "enroll#" ++ str "E")
          (str "status#last") (str "RAW")) ∧
      (∀ d ∈ [(⟨str "D1", true, str "valid", str "TOK", str "", str ""⟩ :
          DeclarationStatus)],
        getItem db4 (str "enroll#" ++ str "E")
            (str "status#dec#" ++ d.identifier) =
          some (declarationStatusItem (str "E") d (str "T1"))) ∧
      (∀ er ∈ [(⟨str "pp", str "EJ"⟩ : StatusErr)],
        getItem db4 (str "enroll#" ++ str "E")
            (str "status#error#" ++ er.path ++ str "#" ++ str "T1") =
          some (statusErrorItem (str "E") er (str "T1"))) :=
  StoreDeclarationStatus_empty_values_frame ⟨[]⟩ (str "E")
    ⟨str "RAW", [⟨str "D1", true, str "valid", str "TOK", str "", str ""⟩],
      [], [⟨str "pp", str "EJ"⟩]⟩ (str "T1") (by decide) (by decide)
    (by decide)

/-! ## C9: the CSV round trip -/

theorem strCRLF_eq : str "\r\n" = ['\r', '\n'] := rfl

theorem strContains_cons_false {c : Char} {rest sub : Str}
    (h : strContains (c :: rest) sub = false) :
    strContains rest sub = false := by
  have h2 : (sub.isPrefixOf (c :: rest) || strContains rest sub) = false := h
  exact (Bool.or_eq_false_iff.1 h2).2

theorem strContains_pre_false {c : Char} {rest sub : Str}
    (h : strContains (c :: rest) sub = false) :
    sub.isPrefixOf (c :: rest) = false := by
  have h2 : (sub.isPrefixOf (c :: rest) || strContains rest sub) = false := h
  exact (Bool.or_eq_false_iff.1 h2).1

theorem csvNormalize_eq_self (s : Str)
    (h : strContains s (str "\r\n") = false) : csvNormalize s = s := by
  induction s using csvNormalize.induct with
  | case1 => rfl
  | case2 rest =>
      exfalso
      have hp := strContains_pre_false h
      rw [strCRLF_eq] at hp
      simp [List.isPrefixOf] at hp
  | case3 c rest hne ih =>
      have hr := ih (strContains_cons_false h)
      rw [csvNormalize]
      · rw [hr]
      all_goals intro r hc hr2; exact hne r hc hr2

theorem strContains_two_false_append (x y : Char) :
    ∀ a b : Str, strContains a [x, y] = false →
      strContains b [x, y] = false →
      (a.getLast? = some x → b.head? = some y → False) →
      strContains (a ++ b) [x, y] = false := by
  intro a
  induction a with
  | nil => intro b _ hb _; exact hb
  | cons c a2 ih =>
      intro b ha hb hedge
      cases a2 with
      | nil =>
          show (([x, y].isPrefixOf (c :: b)) || strContains b [x, y]) = false
          rw [hb, Bool.or_false]
          by_cases hxc : x = c
          · have hhead : ¬b.head? = some y := fun hh =>
              hedge (by simp [hxc]) hh
            cases b with
            | nil => simp [List.isPrefixOf]
            | cons b0 b2 =>
                have hyb : ¬(y = b0) := fun he => hhead (by simp [he])
                simp [List.isPrefixOf]
                intro h1 h2
                exact absurd h2 hyb
          · simp [List.isPrefixOf]
            intro h1
            exact absurd h1 hxc
      | cons c2 a3 =>
          show (([x, y].isPrefixOf (c :: c2 :: (a3 ++ b))) ||
            strContains ((c2 :: a3) ++ b) [x, y]) = false
          have htail : strContains ((c2 :: a3) ++ b) [x, y] = false := by
            refine ih b (strContains_cons_false ha) hb ?_
            intro hl hh
            exact hedge (by rw [List.getLast?_cons_cons]; exact hl) hh
          rw [htail, Bool.or_false]
          have hpre : [x, y].isPrefixOf (c :: c2 :: a3) = false :=
            strContains_pre_false ha
          simp only [List.isPrefixOf, Bool.and_true] at hpre ⊢
          exact hpre

theorem strContains_single_pair (c x y : Char) :
    strContains [c] [x, y] = false := by
  simp [strContains, List.isPrefixOf]

theorem strContains_pair_not_mem {a : Str} {x : Char} (y : Char)
    (h : ¬x ∈ a) : strContains a [x, y] = false := by
  induction a with
  | nil => rfl
  | cons c rest ih =>
      have hxc : ¬(x = c) := fun he => h (he ▸ List.mem_cons_self c rest)
      show (([x, y].isPrefixOf (c :: rest)) || strContains rest [x, y]) = false
      rw [ih (fun hm => h (List.mem_cons_of_mem c hm)), Bool.or_false]
      simp [List.isPrefixOf]
      intro h1
      exact absurd h1 hxc

theorem contains_false_not_mem {a : Str} {x : Char}
    (h : a.contains x = false) : ¬x ∈ a := by
  intro hm
  rw [← List.elem_iff] at hm
  rw [List.contains] at h
  rw [h] at hm
  exact Bool.false_ne_true hm

theorem csvEscape_pre_nl (rest : Str)
    (h : ['\n'].isPrefixOf rest = false) :
    ['\n'].isPrefixOf (csvEscape rest) = false := by
  cases rest with
  | nil => rfl
  | cons d r2 =>
      by_cases hd : d = '"'
      · subst hd; simp [csvEscape, List.isPrefixOf]
      · have hstep : csvEscape (d :: r2) = d :: csvEscape r2 := by
          rw [csvEscape]
          exact hd
        rw [hstep]
        simp only [List.isPrefixOf, Bool.and_eq_false_iff] at h ⊢
        rcases h with h1 | h2
        · exact Or.inl h1
        · exact absurd h2 (by simp)

theorem csvEscape_no_crlf (f : Str)
    (h : strContains f (str "\r\n") = false) :
    strContains (csvEscape f) (str "\r\n") = false := by
  rw [strCRLF_eq] at h ⊢
  induction f with
  | nil => rfl
  | cons c rest ih =>
      have hrest := ih (strContains_cons_false h)
      by_cases hc : c = '"'
      · subst hc
        show ((['\r', '\n'].isPrefixOf ('"' :: '"' :: csvEscape rest)) ||
          ((['\r', '\n'].isPrefixOf ('"' :: csvEscape rest)) ||
            strContains (csvEscape rest) ['\r', '\n'])) = false
        rw [hrest]
        simp [List.isPrefixOf]
      · have hstep : csvEscape (c :: rest) = c :: csvEscape rest := by
          rw [csvEscape]
          exact hc
        rw [hstep]
        show ((['\r', '\n'].isPrefixOf (c :: csvEscape rest)) ||
          strContains (csvEscape rest) ['\r', '\n']) = false
        rw [hrest, Bool.or_false]
        by_cases hcr : c = '\r'
        · subst hcr
          have hpre := strContains_pre_false h
          simp only [List.isPrefixOf, Bool.and_eq_false_iff] at hpre ⊢
          rcases hpre with h1 | h2
          · simp at h1
          · exact Or.inr (by
              rw [csvEscape_pre_nl rest (by
                simpa [List.isPrefixOf, Bool.and_eq_false_iff] using h2)])
        · simp [List.isPrefixOf]
          intro h1
          exact absurd h1.symm hcr

theorem unquoted_no_special (f : Str) (h : fieldNeedsQuotes f = false) :
    f.contains ',' = false ∧ f.contains '"' = false ∧
      f.contains '\r' = false ∧ f.contains '\n' = false := by
  cases f with
  | nil => exact ⟨rfl, rfl, rfl, rfl⟩
  | cons c rest =>
      simp only [fieldNeedsQuotes, Bool.or_eq_false_iff] at h
      exact ⟨h.1.1.1.1.2, h.1.1.1.2, h.1.1.2, h.1.2⟩

theorem csvWriteField_no_crlf (f : Str)
    (h : strContains f (str "\r\n") = false) :
    strContains (csvWriteField f) (str "\r\n") = false ∧
      (csvWriteField f).getLast? ≠ some '\r' := by
  rw [csvWriteField]
  cases hq : fieldNeedsQuotes f with
  | false =>
      simp only [Bool.false_eq_true, if_false]
      refine ⟨h, ?_⟩
      intro hl
      exact contains_false_not_mem (unquoted_no_special f hq).2.2.1
        (List.mem_of_mem_getLast? hl)
  | true =>
      simp only [if_true]
      constructor
      · show ((str "\r\n").isPrefixOf ('"' :: (csvEscape f ++ ['"'])) ||
          strContains (csvEscape f ++ ['"']) (str "\r\n")) = false
        have htail : strContains (csvEscape f ++ ['"']) (str "\r\n") = false := by
          rw [strCRLF_eq]
          refine strContains_two_false_append '\r' '\n' (csvEscape f) ['"']
            ?_ (strContains_single_pair '"' '\r' '\n') ?_
          · rw [← strCRLF_eq]; exact csvEscape_no_crlf f h
          · intro _ hh; simp at hh
        rw [htail, Bool.or_false, strCRLF_eq]
        simp [List.isPrefixOf]
      · rw [List.getLast?_concat]
        simp

theorem csvWriteRecord_no_crlf : ∀ fields : List Str,
    (∀ f ∈ fields, strContains f (str "\r\n") = false) →
    strContains (csvWriteRecord fields) (str "\r\n") = false ∧
      (csvWriteRecord fields).getLast? = some '\n' := by
  intro fields
  induction fields with
  | nil =>
      intro _
      exact ⟨by rw [strCRLF_eq]; exact strContains_single_pair '\n' '\r' '\n',
        rfl⟩
  | cons f rest ih =>
      intro hall
      have hf := hall f (List.mem_cons_self ..)
      obtain ⟨hwf, hwl⟩ := csvWriteField_no_crlf f hf
      cases rest with
      | nil =>
          constructor
          · show strContains (csvWriteField f ++ ['\n']) (str "\r\n") = false
            rw [strCRLF_eq]
            refine strContains_two_false_append '\r' '\n' _ _
              ?_ (strContains_single_pair '\n' '\r' '\n') ?_
            · rw [← strCRLF_eq]; exact hwf
            · intro hl _; exact hwl hl
          · exact List.getLast?_concat _
      | cons f2 rest2 =>
          obtain ⟨hwr, hlr⟩ := ih (fun g hg => hall g
            (List.mem_cons_of_mem _ hg))
          have hne : csvWriteRecord (f2 :: rest2) ≠ [] := by
            intro hempty
            rw [hempty] at hlr
            simp at hlr
          constructor
          · show strContains (csvWriteField f ++
              (',' :: csvWriteRecord (f2 :: rest2))) (str "\r\n") = false
            rw [strCRLF_eq]
            refine strContains_two_false_append '\r' '\n' _ _ ?_ ?_ ?_
            · rw [← strCRLF_eq]; exact hwf
            · show (([ '\r', '\n'].isPrefixOf
                (',' :: csvWriteRecord (f2 :: rest2))) ||
                  strContains (csvWriteRecord (f2 :: rest2))
                    ['\r', '\n']) = false
              rw [← strCRLF_eq, hwr, Bool.or_false, strCRLF_eq]
              simp [List.isPrefixOf]
            · intro hl _; exact hwl hl
          · show (csvWriteField f ++
              (',' :: csvWriteRecord (f2 :: rest2))).getLast? = some '\n'
            rw [List.getLast?_append_of_ne_nil _ (by simp)]
            cases hW : csvWriteRecord (f2 :: rest2) with
            | nil => exact absurd hW hne
            | cons w ws =>
                rw [List.getLast?_cons_cons, ← hW]
                exact hlr

theorem csvWriteAll_no_crlf : ∀ records : List (List Str),
    (∀ r ∈ records, ∀ f ∈ r, strContains f (str "\r\n") = false) →
    strContains (csvWriteAll records) (str "\r\n") = false := by
  intro records
  induction records with
  | nil => intro _; rfl
  | cons r rs ih =>
      intro hall
      show strContains ((csvWriteRecord r :: (rs.map csvWriteRecord)).flatten)
        (str "\r\n") = false
      rw [List.flatten_cons]
      obtain ⟨hr, hrl⟩ := csvWriteRecord_no_crlf r
        (hall r (List.mem_cons_self ..))
      rw [strCRLF_eq]
      refine strContains_two_false_append '\r' '\n' _ _ ?_ ?_ ?_
      · rw [← strCRLF_eq]; exact hr
      · rw [← strCRLF_eq]
        exact ih (fun r2 h2 f hf => hall r2 (List.mem_cons_of_mem _ h2) f hf)
      · intro hl _
        rw [hrl] at hl
        simp at hl

theorem beq_false_of_rev {x c : Char} (h : (x == c) = false) :
    (c == x) = false :=
  beq_eq_false_iff_ne.2 (fun he => (beq_eq_false_iff_ne.1 h) he.symm)

theorem csv_unquoted_run : ∀ f : Str, f.contains ',' = false →
    f.contains '"' = false → f.contains '\n' = false →
    ∀ (g : Str) (recs : List (List Str)) (cur : List Str) (rest : Str),
      List.foldl csvStep ⟨recs, cur, g, .unquoted⟩ (f ++ rest) =
        List.foldl csvStep ⟨recs, cur, g ++ f, .unquoted⟩ rest := by
  intro f
  induction f with
  | nil => intro _ _ _ g recs cur rest; simp
  | cons c f2 ih =>
      intro hc hq hn g recs cur rest
      rw [List.contains_cons, Bool.or_eq_false_iff] at hc hq hn
      have h1 : (c == '\n') = false := beq_false_of_rev hn.1
      have h2 : (c == '"') = false := beq_false_of_rev hq.1
      have h3 : (c == ',') = false := beq_false_of_rev hc.1
      have hstep : csvStep ⟨recs, cur, g, .unquoted⟩ c =
          ⟨recs, cur, g ++ [c], .unquoted⟩ := by
        simp [csvStep, h1, h2, h3]
      rw [List.cons_append, List.foldl_cons, hstep,
        ih hc.2 hq.2 hn.2 (g ++ [c]) recs cur rest, List.append_assoc]
      rfl

theorem csv_quoted_run : ∀ f g : Str, ∀ (recs : List (List Str))
    (cur : List Str) (rest : Str),
    List.foldl csvStep ⟨recs, cur, g, .quoted⟩ (csvEscape f ++ rest) =
      List.foldl csvStep ⟨recs, cur, g ++ f, .quoted⟩ rest := by
  intro f
  induction f with
  | nil => intro g recs cur rest; simp [csvEscape]
  | cons c f2 ih =>
      intro g recs cur rest
      by_cases hcq : c = '"'
      · subst hcq
        show List.foldl csvStep ⟨recs, cur, g, .quoted⟩
          (('"' :: '"' :: csvEscape f2) ++ rest) = _
        rw [List.cons_append, List.cons_append, List.foldl_cons,
          List.foldl_cons]
        have hstep1 : csvStep ⟨recs, cur, g, .quoted⟩ '"' =
            ⟨recs, cur, g, .afterQuote⟩ := by simp [csvStep]
        have hstep2 : csvStep ⟨recs, cur, g, .afterQuote⟩ '"' =
            ⟨recs, cur, g ++ ['"'], .quoted⟩ := by simp [csvStep]
        rw [hstep1, hstep2, ih (g ++ ['"']) recs cur rest,
          List.append_assoc]
        rfl
      · have hesc : csvEscape (c :: f2) = c :: csvEscape f2 := by
          rw [csvEscape]
          exact hcq
        have h2 : (c == '"') = false := beq_eq_false_iff_ne.2 hcq
        rw [hesc, List.cons_append, List.foldl_cons]
        have hstep : csvStep ⟨recs, cur, g, .quoted⟩ c =
            ⟨recs, cur, g ++ [c], .quoted⟩ := by
          simp [csvStep, h2]
        rw [hstep, ih (g ++ [c]) recs cur rest, List.append_assoc]
        rfl

theorem csv_step_rs_eq_fs (recs : List (List Str)) (cur : List Str)
    (c : Char) (h : (c == '\n') = false) :
    csvStep ⟨recs, cur, [], .recordStart⟩ c =
      csvStep ⟨recs, cur, [], .fieldStart⟩ c := by
  simp only [csvStep, h, Bool.false_eq_true, if_false]

theorem csv_field_comma_fs (f : Str) : ∀ (recs : List (List Str))
    (cur : List Str) (rest : Str),
    List.foldl csvStep ⟨recs, cur, [], .fieldStart⟩
        (csvWriteField f ++ ',' :: rest) =
      List.foldl csvStep ⟨recs, cur ++ [f], [], .fieldStart⟩ rest := by
  intro recs cur rest
  rw [csvWriteField]
  cases hq : fieldNeedsQuotes f with
  | true =>
      simp only [if_true]
      rw [show (('"' :: csvEscape f) ++ ['"']) ++ ',' :: rest =
        '"' :: (csvEscape f ++ ('"' :: ',' :: rest)) by
          simp [List.append_assoc]]
      rw [List.foldl_cons]
      have hstep : csvStep ⟨recs, cur, [], .fieldStart⟩ '"' =
          ⟨recs, cur, [], .quoted⟩ := by simp [csvStep]
      rw [hstep, csv_quoted_run f [] recs cur ('"' :: ',' :: rest),
        List.foldl_cons, List.foldl_cons]
      have hstep2 : csvStep ⟨recs, cur, [] ++ f, .quoted⟩ '"' =
          ⟨recs, cur, [] ++ f, .afterQuote⟩ := by simp [csvStep]
      rw [hstep2]
      have hstep3 : csvStep ⟨recs, cur, [] ++ f, .afterQuote⟩ ',' =
          ⟨recs, cur ++ [[] ++ f], [], .fieldStart⟩ := by simp [csvStep]
      rw [hstep3]
      simp
  | false =>
      simp only [Bool.false_eq_true, if_false]
      obtain ⟨hc, hqq, hr, hn⟩ := unquoted_no_special f hq
      cases f with
      | nil =>
          rw [List.nil_append, List.foldl_cons]
          have hstep : csvStep ⟨recs, cur, [], .fieldStart⟩ ',' =
              ⟨recs, cur ++ [[]], [], .fieldStart⟩ := by simp [csvStep]
          rw [hstep]
      | cons c0 f2 =>
          rw [List.contains_cons, Bool.or_eq_false_iff] at hc hqq hn
          have h1 : (c0 == '\n') = false := beq_false_of_rev hn.1
          have h2 : (c0 == '"') = false := beq_false_of_rev hqq.1
          have h3 : (c0 == ',') = false := beq_false_of_rev hc.1
          rw [List.cons_append, List.foldl_cons]
          have hstep : csvStep ⟨recs, cur, [], .fieldStart⟩ c0 =
              ⟨recs, cur, [c0], .unquoted⟩ := by
            simp [csvStep, h1, h2, h3]
          rw [hstep, csv_unquoted_run f2 hc.2 hqq.2 hn.2 [c0] recs cur
            (',' :: rest), List.foldl_cons]
          have hstep2 : csvStep ⟨recs, cur, [c0] ++ f2, .unquoted⟩ ',' =
              ⟨recs, cur ++ [[c0] ++ f2], [], .fieldStart⟩ := by
            simp [csvStep]
          rw [hstep2]
          rfl

theorem csv_field_comma_rs (f : Str) : ∀ (recs : List (List Str))
    (cur : List Str) (rest : Str),
    List.foldl csvStep ⟨recs, cur, [], .recordStart⟩
        (csvWriteField f ++ ',' :: rest) =
      List.foldl csvStep ⟨recs, cur ++ [f], [], .fieldStart⟩ rest := by
  intro recs cur rest
  have hne : ∃ c0 s2, csvWriteField f ++ ',' :: rest = c0 :: s2 ∧
      (c0 == '\n') = false := by
    rw [csvWriteField]
    cases hq : fieldNeedsQuotes f with
    | true =>
        exact ⟨'"', csvEscape f ++ ('"' :: ',' :: rest),
          by simp [List.append_assoc], by decide⟩
    | false =>
        cases f with
        | nil => exact ⟨',', rest, by simp, by decide⟩
        | cons c0 f2 =>
            obtain ⟨_, _, _, hn⟩ := unquoted_no_special (c0 :: f2) hq
            rw [List.contains_cons, Bool.or_eq_false_iff] at hn
            exact ⟨c0, f2 ++ ',' :: rest, by simp,
              beq_false_of_rev hn.1⟩
  obtain ⟨c0, s2, heq, hc0⟩ := hne
  rw [heq, List.foldl_cons, csv_step_rs_eq_fs recs cur c0 hc0,
    ← List.foldl_cons, ← heq]
  exact csv_field_comma_fs f recs cur rest

theorem csv_field_newline_fs (f : Str) : ∀ (recs : List (List Str))
    (cur : List Str) (rest : Str),
    List.foldl csvStep ⟨recs, cur, [], .fieldStart⟩
        (csvWriteField f ++ '\n' :: rest) =
      List.foldl csvStep ⟨recs ++ [cur ++ [f]], [], [], .recordStart⟩
        rest := by
  intro recs cur rest
  rw [csvWriteField]
  cases hq : fieldNeedsQuotes f with
  | true =>
      simp only [if_true]
      rw [show (('"' :: csvEscape f) ++ ['"']) ++ '\n' :: rest =
        '"' :: (csvEscape f ++ ('"' :: '\n' :: rest)) by
          simp [List.append_assoc]]
      rw [List.foldl_cons]
      have hstep : csvStep ⟨recs, cur, [], .fieldStart⟩ '"' =
          ⟨recs, cur, [], .quoted⟩ := by simp [csvStep]
      rw [hstep, csv_quoted_run f [] recs cur ('"' :: '\n' :: rest),
        List.foldl_cons, List.foldl_cons]
      have hstep2 : csvStep ⟨recs, cur, [] ++ f, .quoted⟩ '"' =
          ⟨recs, cur, [] ++ f, .afterQuote⟩ := by simp [csvStep]
      rw [hstep2]
      have hstep3 : csvStep ⟨recs, cur, [] ++ f, .afterQuote⟩ '\n' =
          ⟨recs ++ [cur ++ [[] ++ f]], [], [], .recordStart⟩ := by
        simp [csvStep]
      rw [hstep3]
      simp
  | false =>
      simp only [Bool.false_eq_true, if_false]
      obtain ⟨hc, hqq, hr, hn⟩ := unquoted_no_special f hq
      cases f with
      | nil =>
          rw [List.nil_append, List.foldl_cons]
          have hstep : csvStep ⟨recs, cur, [], .fieldStart⟩ '\n' =
              ⟨recs ++ [cur ++ [[]]], [], [], .recordStart⟩ := by
            simp [csvStep]
          rw [hstep]
      | cons c0 f2 =>
          rw [List.contains_cons, Bool.or_eq_false_iff] at hc hqq hn
          have h1 : (c0 == '\n') = false := beq_false_of_rev hn.1
          have h2 : (c0 == '"') = false := beq_false_of_rev hqq.1
          have h3 : (c0 == ',') = false := beq_false_of_rev hc.1
          rw [List.cons_append, List.foldl_cons]
          have hstep : csvStep ⟨recs, cur, [], .fieldStart⟩ c0 =
              ⟨recs, cur, [c0], .unquoted⟩ := by
            simp [csvStep, h1, h2, h3]
          rw [hstep, csv_unquoted_run f2 hc.2 hqq.2 hn.2 [c0] recs cur
            ('\n' :: rest), List.foldl_cons]
          have hstep2 : csvStep ⟨recs, cur, [c0] ++ f2, .unquoted⟩ '\n' =
              ⟨recs ++ [cur ++ [[c0] ++ f2]], [], [], .recordStart⟩ := by
            simp [csvStep]
          rw [hstep2]
          rfl

theorem csv_record4 (a b c d : Str) : ∀ (recs : List (List Str))
    (rest : Str),
    List.foldl csvStep ⟨recs, [], [], .recordStart⟩
        (csvWriteRecord [a, b, c, d] ++ rest) =
      List.foldl csvStep ⟨recs ++ [[a, b, c, d]], [], [], .recordStart⟩
        rest := by
  intro recs rest
  rw [show csvWriteRecord [a, b, c, d] ++ rest =
    csvWriteField a ++ ',' :: (csvWriteField b ++ ',' :: (csvWriteField c ++
      ',' :: (csvWriteField d ++ '\n' :: rest))) by
      show (csvWriteField a ++ ',' :: (csvWriteField b ++
        ',' :: (csvWriteField c ++ ',' :: (csvWriteField d ++ ['\n'])))) ++
          rest = _
      simp [List.append_assoc]]
  rw [csv_field_comma_rs, csv_field_comma_fs, csv_field_comma_fs,
    csv_field_newline_fs]
  rfl

theorem csv_records4 : ∀ (records : List (List Str))
    (recs : List (List Str)),
    (∀ r ∈ records, ∃ a b c d, r = [a, b, c, d]) →
    List.foldl csvStep ⟨recs, [], [], .recordStart⟩ (csvWriteAll records) =
      ⟨recs ++ records, [], [], .recordStart⟩ := by
  intro records
  induction records with
  | nil => intro recs _; simp [csvWriteAll]
  | cons r rs ih =>
      intro recs hall
      obtain ⟨a, b, c, d, habcd⟩ := hall r (List.mem_cons_self ..)
      subst habcd
      show List.foldl csvStep _
        ((csvWriteRecord [a, b, c, d] :: (rs.map csvWriteRecord)).flatten) = _
      rw [List.flatten_cons, csv_record4]
      rw [show (rs.map csvWriteRecord).flatten = csvWriteAll rs from rfl]
      rw [ih (recs ++ [[a, b, c, d]])
        (fun r2 h2 => hall r2 (List.mem_cons_of_mem _ h2))]
      simp

theorem csvReadAll_writeAll (records : List (List Str))
    (h4 : ∀ r ∈ records, ∃ a b c d, r = [a, b, c, d])
    (hnc : ∀ r ∈ records, ∀ f ∈ r, strContains f (str "\r\n") = false) :
    csvReadAll (csvWriteAll records) = .ok records := by
  rw [csvReadAll, csvNormalize_eq_self _ (csvWriteAll_no_crlf records hnc)]
  rw [show csvInit = (⟨[], [], [], .recordStart⟩ : CsvState) from rfl]
  rw [csv_records4 records [] h4]
  rfl

theorem recordsToValues_map (values : List StatusValue) :
    recordsToValues (values.map statusValueRecord) = .ok values := by
  induction values with
  | nil => rfl
  | cons v vs ih =>
      show recordsToValues (statusValueRecord v :: vs.map statusValueRecord) =
        .ok (v :: vs)
      rw [show statusValueRecord v =
        [v.path, v.containerType, v.valueType, v.value] from rfl]
      rw [recordsToValues, ih]
      rfl

theorem mergeLoop_all_new : ∀ (src ret : List StatusValue),
    (∀ v ∈ src, v ∉ ret) → src.Nodup →
    src.foldl
        (fun ret srcValue =>
          if containsValue ret srcValue < 0 then ret ++ [srcValue] else ret)
        ret = ret ++ src := by
  intro src
  induction src with
  | nil => intro ret _ _; simp
  | cons v vs ih =>
      intro ret hnotin hnd
      rw [List.nodup_cons] at hnd
      have hv : containsValue ret v < 0 :=
        (containsValue_neg_iff ret v).2 (hnotin v (List.mem_cons_self ..))
      rw [List.foldl_cons]
      simp only [hv, if_true]
      rw [ih (ret ++ [v]) (by
        intro w hw hmem
        rcases List.mem_append.1 hmem with hm1 | hm2
        · exact hnotin w (List.mem_cons_of_mem _ hw) hm1
        · exact hnd.1 ((List.mem_singleton.1 hm2) ▸ hw)) hnd.2]
      simp

theorem mergeStatusValues_nil_nodup (values : List StatusValue)
    (h : values.Nodup) : mergeStatusValues [] values = values := by
  rw [mergeStatusValues]
  rw [List.nil_append]
  exact mergeLoop_all_new values [] (by intro v _ hm; exact (List.not_mem_nil v) hm) h

theorem csvWriteRecord_ne_nil : ∀ fields : List Str,
    csvWriteRecord fields ≠ [] := by
  intro fields
  match fields with
  | [] => simp [csvWriteRecord]
  | [f] => simp [csvWriteRecord]
  | f :: f2 :: rest => simp [csvWriteRecord]

theorem encodeStatusValues_ne_nil (v : StatusValue)
    (vs : List StatusValue) : (encodeStatusValues (v :: vs)).isEmpty = false := by
  cases hE : (encodeStatusValues (v :: vs)).isEmpty with
  | false => rfl
  | true =>
      exfalso
      rw [List.isEmpty_iff] at hE
      have : csvWriteRecord (statusValueRecord v) ++
          csvWriteAll (vs.map statusValueRecord) = [] := hE
      rw [List.append_eq_nil] at this
      exact csvWriteRecord_ne_nil _ this.1

theorem goodSV_fields {v : StatusValue} (h : goodSV v = true) :
    ∀ f ∈ statusValueRecord v, strContains f (str "\r\n") = false := by
  simp only [goodSV, Bool.and_eq_true, Bool.not_eq_true'] at h
  intro f hf
  simp only [statusValueRecord, List.mem_cons, List.not_mem_nil,
    or_false] at hf
  rcases hf with h1 | h2 | h3 | h4
  · exact h1 ▸ h.1.1.1
  · exact h2 ▸ h.1.1.2
  · exact h3 ▸ h.1.2
  · exact h4 ▸ h.2

/-- **C9** (corrected): writing a value set with `storeStatusValues` into an
enrollment with no stored values and reading it back with
`readStatusValues` returns the same sequence, *provided* the list repeats
no tuple (the store merges through `mergeStatusValues`, which drops exact
duplicates) and no field contains a CR directly followed by an LF (Go's
`csv.Reader` rewrites `"\r\n"` to `"\n"` even inside quoted fields, so such
a field reads back altered — the counterexample). -/
theorem storeStatusValues_roundtrip (db : DB) (e : Str)
    (values : List StatusValue) (hcur : readStatusValues db e = .ok [])
    (hne : values ≠ []) (hnd : values.Nodup)
    (hgood : ∀ v ∈ values, goodSV v = true) :
    ∃ db2, storeStatusValues db e values = .ok db2 ∧
      readStatusValues db2 e = .ok values := by
  have hlen : ¬values.length < 1 := by
    cases values with
    | nil => exact absurd rfl hne
    | cons v vs => simp
  have hmerge := mergeStatusValues_nil_nodup values hnd
  refine ⟨putItem db (marshalDsGenericItem (str "enroll#" ++ e)
    (str "status#values") (encodeStatusValues values)), ?_, ?_⟩
  · rw [storeStatusValues, if_neg hlen, hcur]
    show (if (mergeStatusValues [] values).length < 1 then Except.ok db
      else _) = _
    rw [hmerge, if_neg hlen]
  · obtain ⟨v0, vs0, hv0⟩ : ∃ v0 vs0, values = v0 :: vs0 := by
      cases values with
      | nil => exact absurd rfl hne
      | cons v vs => exact ⟨v, vs, rfl⟩
    have hget := getItem_putItem_same db
      (marshalDsGenericItem (str "enroll#" ++ e) (str "status#values")
        (encodeStatusValues values))
    have hbody : (encodeStatusValues values).isEmpty = false := by
      rw [hv0]; exact encodeStatusValues_ne_nil v0 vs0
    rw [readStatusValues, getSingleItemPKSK]
    rw [show getItem (putItem db (marshalDsGenericItem (str "enroll#" ++ e)
      (str "status#values") (encodeStatusValues values)))
        (str "enroll#" ++ e) (str "status#values") =
      some (marshalDsGenericItem (str "enroll#" ++ e) (str "status#values")
        (encodeStatusValues values)) from hget]
    show decodeStatusValues (attrOf ((marshalDsGenericItem
      (str "enroll#" ++ e) (str "status#values")
      (encodeStatusValues values)).attrs) (str "body")) = _
    rw [show (marshalDsGenericItem (str "enroll#" ++ e)
      (str "status#values") (encodeStatusValues values)).attrs =
      if (encodeStatusValues values).isEmpty then []
      else [(str "body", encodeStatusValues values)] from rfl]
    rw [hbody]
    show decodeStatusValues (encodeStatusValues values) = _
    rw [decodeStatusValues]
    rw [show encodeStatusValues values =
      csvWriteAll (values.map statusValueRecord) from rfl]
    rw [csvReadAll_writeAll (values.map statusValueRecord)
      (by
        intro r hr
        obtain ⟨v, _, hveq⟩ := List.mem_map.1 hr
        exact ⟨v.path, v.containerType, v.valueType, v.value, hveq.symm⟩)
      (by
        intro r hr f hf
        obtain ⟨v, hv, hveq⟩ := List.mem_map.1 hr
        exact goodSV_fields (hgood v hv) f (hveq ▸ hf))]
    exact recordsToValues_map values

theorem storeStatusValues_roundtrip_witness :
    ∃ db2, storeStatusValues ⟨[]⟩ (str "E")
        [⟨str "p1", str "c", str "t", str "v1"⟩,
          ⟨str "p1", str "c", str "t", str "v2"⟩] = .ok db2 ∧
      readStatusValues db2 (str "E") =
        .ok [⟨str "p1", str "c", str "t", str "v1"⟩,
          ⟨str "p1", str "c", str "t", str "v2"⟩] :=
  storeStatusValues_roundtrip ⟨[]⟩ (str "E") _ (by decide) (by decide)
    (by decide) (by decide)

/-- Counterexample to C9 as stated: a value whose byte string contains
`"\r\n"` does not survive the CSV round trip — it reads back with the CR
removed, so store-then-read is not the identity on arbitrary tuples. -/
theorem statusValues_crlf_not_roundtrip :
    (storeStatusValues ⟨[]⟩ (str "E")
        [⟨str "p", str "c", str "t", str "a\r\nb"⟩]).map
      (fun db2 => readStatusValues db2 (str "E")) =
      .ok (.ok [⟨str "p", str "c", str "t", str "a\nb"⟩]) ∧
    (⟨str "p", str "c", str "t", str "a\nb"⟩ : StatusValue) ≠
      ⟨str "p", str "c", str "t", str "a\r\nb"⟩ := by decide
